import Mathlib

/-!
# script.js (class Calculator): a shallow embedding

The embedding follows `src/script.js` method by method.  The class `Calculator`
becomes a record of its fields (the two symbol-table objects, the history array
and the content of the page elements it writes to); every method becomes a
function on that record, and a method that can end by an uncaught exception
returns the state reached together with the value thrown.

What the script takes from the JavaScript engine and cannot be read off its own
text is a parameter, the record `Host`: case conversion, the text of a Number,
`toFixed`, the evaluation of a constructed function body, and regular
expressions built from a name that holds pattern syntax.  The theorems about the
methods hold for every host.  `Ref` gives what an engine does on a fragment of
these inputs, `Conforms H` says that the host `H` agrees with it there, and
`refHost` is a host that conforms; theorems that depend on the grammar or the
arithmetic of the language are stated for conforming hosts.

The built-in functions with a lexical definition (`trim`, `parseFloat`,
`parseInt`, `Number`, `String.prototype.includes`, the default order of
`Array.prototype.sort`, the patterns of `evaluateExpression` for plain names)
are defined here.  JavaScript strings are lists of characters, and a plain
object is the list of its own properties in creation order, with the two
properties it inherits from `Object.prototype` that the script can reach
through a user-chosen name (`hasOwnProperty`, `__proto__`).
-/

set_option autoImplicit false

/-! ## Strings -/

/-- JavaScript string values. -/
abbrev JSString := List Char

/-- The apostrophe character (U+0027). -/
def apostrophe : Char := Char.ofNat 39

/-- WhiteSpace and LineTerminator code points of ECMAScript: the set stripped by
`String.prototype.trim`, skipped by `parseFloat`, `parseInt` and `Number`, and
matched by the regular-expression class `\s`. -/
def isWhiteSpace (c : Char) : Bool :=
  c.toNat = 0x09 || c.toNat = 0x0A || c.toNat = 0x0B || c.toNat = 0x0C || c.toNat = 0x0D ||
  c.toNat = 0x20 || c.toNat = 0xA0 || c.toNat = 0x1680 ||
  (0x2000 ≤ c.toNat && c.toNat ≤ 0x200A) ||
  c.toNat = 0x2028 || c.toNat = 0x2029 || c.toNat = 0x202F || c.toNat = 0x205F ||
  c.toNat = 0x3000 || c.toNat = 0xFEFF

/-- Leading white space removed. -/
def trimStart (s : JSString) : JSString := s.dropWhile isWhiteSpace

/-- Trailing white space removed. -/
def trimEnd (s : JSString) : JSString := s.rdropWhile isWhiteSpace

/-- `String.prototype.trim`. -/
def trim (s : JSString) : JSString := trimEnd (trimStart s)

/-- Lower-casing of an ASCII character: the letters `A`-`Z` are mapped to `a`-`z`,
every other character is left as it is. -/
def toLowerChar (c : Char) : Char :=
  if 65 ≤ c.toNat ∧ c.toNat ≤ 90 then Char.ofNat (c.toNat + 32) else c

/-- `String.prototype.toLowerCase` on a text of ASCII characters. -/
def toLowerCaseAscii (s : JSString) : JSString := s.map toLowerChar

/-- `String.prototype.includes`: `sub` occurs in `s` as a contiguous run. -/
def includes : JSString → JSString → Bool
  | [], sub => sub.isEmpty
  | c :: cs, sub => sub.isPrefixOf (c :: cs) || includes cs sub

/-- UTF-16 code units of one character. -/
def utf16 (c : Char) : List Nat :=
  if c.toNat < 0x10000 then [c.toNat]
  else [0xD800 + (c.toNat - 0x10000) / 0x400, 0xDC00 + (c.toNat - 0x10000) % 0x400]

/-- UTF-16 code units of a string. -/
def codeUnits (s : JSString) : List Nat := s.flatMap utf16

/-- The order used by `Array.prototype.sort` without a comparator on strings:
lexicographic comparison of the UTF-16 code units. -/
def jsStringLE (a b : JSString) : Prop := codeUnits a ≤ codeUnits b

instance : DecidableRel jsStringLE := fun a b =>
  inferInstanceAs (Decidable (codeUnits a ≤ codeUnits b))

instance : IsTotal JSString jsStringLE := ⟨fun a b => le_total (codeUnits a) (codeUnits b)⟩

instance : IsTrans JSString jsStringLE :=
  ⟨fun a b c (h1 : codeUnits a ≤ codeUnits b) (h2 : codeUnits b ≤ codeUnits c) => le_trans h1 h2⟩

/-- `Array.prototype.sort()` on an array of strings.  The script sorts the own
keys of an object, which are pairwise different, so the sorted arrangement is
determined by the order alone. -/
def sortStrings (l : List JSString) : List JSString := l.insertionSort jsStringLE

/-- Value of a decimal digit character. -/
def digitValue (c : Char) : Nat := c.toNat - 48

/-- Value of a run of decimal digits, most significant first. -/
def digitsValue (ds : List Char) : Nat := ds.foldl (fun acc c => acc * 10 + digitValue c) 0

/-- Decimal text of a natural number, as produced by converting a non-negative
integer below 10^21 to a string. -/
def natToString (n : Nat) : JSString := Nat.toDigits 10 n

/-! ## Numbers -/

/-- JavaScript Number values.  `fin m e` stands for the binary64 value nearest to
`m * 10^e`; every finite binary64 value has such a form.  The sign of zero is
not recorded. -/
inductive JSNumber where
  | nan
  | posInf
  | negInf
  | fin (mantissa : Int) (exp10 : Int)
  deriving DecidableEq, Repr

/-- Global `isNaN` on a Number. -/
def JSNumber.isNaN : JSNumber → Bool
  | .nan => true
  | _ => false

/-- A Number that is neither NaN nor an infinity. -/
def JSNumber.isFinite : JSNumber → Bool
  | .fin _ _ => true
  | _ => false

/-- The number 2^1024 - 2^970: reals of at least this size round to an infinity. -/
def overflowThreshold : Nat :=
  179769313486231580793728971405303415079934132710037826936173778980444968292764750946649017977587207096330286416692887910946555547851940402630657488671505820681908902000708383676273854845817711531764475730270069855571366959622842914819860834936475292719074168444365510704342711559699508093042880177904174497792

/-- The real number `m * 10^e` is at least `2^1024 - 2^970` in absolute value,
so that its nearest binary64 value is an infinity. -/
def overflows (m e : Int) : Bool :=
  if 0 ≤ e then decide (overflowThreshold ≤ m.natAbs * 10 ^ e.toNat)
  else decide (overflowThreshold * 10 ^ (-e).toNat ≤ m.natAbs)

/-- The Number denoted by sign, mantissa and decimal exponent. -/
def mkNumber (negative : Bool) (m : Nat) (e : Int) : JSNumber :=
  if overflows m e then (if negative then .negInf else .posInf)
  else .fin (if negative then -(m : Int) else m) e

/-- Equality of Numbers as `==` sees it: NaN differs from everything, and finite
values are compared by the real numbers they stand for. -/
def JSNumber.numEq : JSNumber → JSNumber → Bool
  | .posInf, .posInf => true
  | .negInf, .negInf => true
  | .fin m1 e1, .fin m2 e2 =>
      decide (m1 * 10 ^ (e1 - min e1 e2).toNat = m2 * 10 ^ (e2 - min e1 e2).toNat)
  | _, _ => false

/-- Optional exponent part `e`/`E`, optional sign, digits: the exponent and the
text after it, or exponent 0 and the text itself when there is no exponent part. -/
def scanExponent (s : JSString) : Int × JSString :=
  match s with
  | c :: rest =>
    if c = 'e' ∨ c = 'E' then
      match rest with
      | '+' :: r =>
        if (r.takeWhile Char.isDigit).isEmpty then (0, s)
        else (digitsValue (r.takeWhile Char.isDigit), r.dropWhile Char.isDigit)
      | '-' :: r =>
        if (r.takeWhile Char.isDigit).isEmpty then (0, s)
        else (-(digitsValue (r.takeWhile Char.isDigit) : Int), r.dropWhile Char.isDigit)
      | r =>
        if (r.takeWhile Char.isDigit).isEmpty then (0, s)
        else (digitsValue (r.takeWhile Char.isDigit), r.dropWhile Char.isDigit)
    else (0, s)
  | [] => (0, s)

/-- Longest prefix that is an unsigned decimal literal other than `Infinity`
(digits with optional fraction and exponent, or a fraction starting with the
point): mantissa, decimal exponent and the text after the literal. -/
def scanDecimal (s : JSString) : Option (Nat × Int × JSString) :=
  let intPart := s.takeWhile Char.isDigit
  let rest := s.dropWhile Char.isDigit
  match rest with
  | '.' :: r =>
    let frac := r.takeWhile Char.isDigit
    if intPart.isEmpty ∧ frac.isEmpty then none
    else
      let ex := scanExponent (r.dropWhile Char.isDigit)
      some (digitsValue (intPart ++ frac), ex.1 - frac.length, ex.2)
  | _ =>
    if intPart.isEmpty then none
    else
      let ex := scanExponent rest
      some (digitsValue intPart, ex.1, ex.2)

/-- Text `Infinity`. -/
def infinityText : JSString := "Infinity".toList

/-- An unsigned decimal literal at the start of `s`: the Number and the rest. -/
def scanUnsigned (negative : Bool) (s : JSString) : Option (JSNumber × JSString) :=
  if infinityText.isPrefixOf s then
    some (if negative then .negInf else .posInf, s.drop infinityText.length)
  else
    match scanDecimal s with
    | some (m, e, rest) => some (mkNumber negative m e, rest)
    | none => none

/-- A signed decimal literal at the start of `s`: the Number and the rest. -/
def scanSigned (s : JSString) : Option (JSNumber × JSString) :=
  match s with
  | '+' :: r => scanUnsigned false r
  | '-' :: r => scanUnsigned true r
  | _ => scanUnsigned false s

/-- Global `parseFloat`: the longest decimal-literal prefix of the text after
leading white space, NaN when there is none. -/
def parseFloat (s : JSString) : JSNumber :=
  match scanSigned (trimStart s) with
  | some (x, _) => x
  | none => .nan

/-- Value of a digit of the given radix, if the character is one. -/
def radixDigit (radix : Nat) (c : Char) : Option Nat :=
  let v :=
    if c.isDigit then c.toNat - 48
    else if 97 ≤ c.toNat ∧ c.toNat ≤ 122 then c.toNat - 87
    else if 65 ≤ c.toNat ∧ c.toNat ≤ 90 then c.toNat - 55
    else 36
  if v < radix then some v else none

/-- Value of a text made only of digits of the radix, none when it is empty or
holds another character. -/
def radixValue (radix : Nat) (s : JSString) : Option Nat :=
  if s.isEmpty then none
  else s.foldl (fun acc c => match acc, radixDigit radix c with
    | some a, some d => some (a * radix + d)
    | _, _ => none) (some 0)

/-- `Number(text)`: the text, trimmed, read as a numeric literal (empty text is
0; a signed decimal literal or `Infinity`; an unsigned binary, octal or
hexadecimal integer literal); NaN when the whole text is not one. -/
def stringToNumber (s : JSString) : JSNumber :=
  match trim s with
  | [] => .fin 0 0
  | '0' :: p :: r =>
    if p = 'x' ∨ p = 'X' then (match radixValue 16 r with | some n => mkNumber false n 0 | none => .nan)
    else if p = 'o' ∨ p = 'O' then (match radixValue 8 r with | some n => mkNumber false n 0 | none => .nan)
    else if p = 'b' ∨ p = 'B' then (match radixValue 2 r with | some n => mkNumber false n 0 | none => .nan)
    else (match scanSigned ('0' :: p :: r) with | some (x, []) => x | _ => .nan)
  | t => (match scanSigned t with | some (x, []) => x | _ => .nan)

/-- `parseInt(text)` without a radix argument: none stands for NaN.  Leading
white space and a sign are skipped, a `0x`/`0X` prefix selects radix 16, and the
longest run of digits is read. -/
def parseInt (s : JSString) : Option Int :=
  let body (neg : Bool) (t : JSString) : Option Int :=
    let go (radix : Nat) (u : JSString) : Option Int :=
      let ds := u.takeWhile (fun c => (radixDigit radix c).isSome)
      if ds.isEmpty then none
      else
        let n := ds.foldl (fun acc c => acc * radix + (radixDigit radix c).getD 0) 0
        some (if neg then -(n : Int) else n)
    match t with
    | '0' :: 'x' :: u => go 16 u
    | '0' :: 'X' :: u => go 16 u
    | u => go 10 u
  match trimStart s with
  | '+' :: t => body false t
  | '-' :: t => body true t
  | t => body false t

/-! ## Values, errors and objects -/

/-- A thrown value: the `name` of the error and its `message`, none when the
thrown value has no text under `message`. -/
structure JSError where
  name : JSString
  message : Option JSString
  deriving DecidableEq, Repr

deriving instance DecidableEq for Except

/-- A TypeError raised by the engine. -/
def typeError (msg : JSString) : JSError := ⟨"TypeError".toList, some msg⟩

/-- Values an evaluated function body can return.  `other` covers objects,
functions and symbols, named by a reference the host interprets. -/
inductive JSValue where
  | number (x : JSNumber)
  | boolean (b : Bool)
  | string (s : JSString)
  | null
  | undefined
  | bigint (n : Int)
  | other (ref : Nat)
  deriving DecidableEq, Repr

/-- An ordinary object holding Numbers, with `Object.prototype` as prototype: its
own properties in creation order. -/
abbrev JSObject := List (JSString × JSNumber)

/-- Property name `hasOwnProperty`. -/
def hasOwnPropertyKey : JSString := "hasOwnProperty".toList

/-- Property name `__proto__`. -/
def protoKey : JSString := "__proto__".toList

/-- The object has an own property `k`. -/
def JSObject.hasOwn (o : JSObject) (k : JSString) : Bool := (o.lookup k).isSome

/-- CreateDataProperty: an own property is written in place, a new one is added
after the existing ones. -/
def JSObject.define : JSObject → JSString → JSNumber → JSObject
  | [], k, v => [(k, v)]
  | (k', v') :: rest, k, v =>
    if k' = k then (k', v) :: rest else (k', v') :: JSObject.define rest k v

/-- The assignment `o[k] = v` of a Number.  An own property is written; without
one, the name `__proto__` reaches the accessor inherited from `Object.prototype`,
whose setter ignores a value that is not an object; any other name becomes a new
own property. -/
def JSObject.assign (o : JSObject) (k : JSString) (v : JSNumber) : JSObject :=
  if o.hasOwn k then o.define k v
  else if k = protoKey then o
  else o.define k v

/-- The statement `delete o[k]`. -/
def JSObject.delete (o : JSObject) (k : JSString) : JSObject := o.filter (fun p => p.1 ≠ k)

/-- The method call `o.hasOwnProperty(k)`.  The method is looked up on the object
first: an own property named `hasOwnProperty` holds a Number, and calling it is
a TypeError; otherwise the method of `Object.prototype` answers. -/
def JSObject.callHasOwnProperty (receiver : JSString) (o : JSObject) (k : JSString) :
    Except JSError Bool :=
  if o.hasOwn hasOwnPropertyKey then
    .error (typeError (receiver ++ ".hasOwnProperty is not a function".toList))
  else .ok (o.hasOwn k)

/-- The key is an array index: the canonical decimal text of an integer below
2^32 - 1. -/
def isArrayIndex (k : JSString) : Bool :=
  !k.isEmpty && k.all Char.isDigit && (k == ['0'] || k.head? != some '0') &&
    decide (digitsValue k < 4294967295)

/-- Own property keys in the order of `Object.keys` and `Object.entries`: array
indices in ascending numeric order, then the other names in creation order. -/
def JSObject.ownKeys (o : JSObject) : List JSString :=
  ((o.map Prod.fst).filter isArrayIndex).insertionSort (fun a b => digitsValue a ≤ digitsValue b) ++
    (o.map Prod.fst).filter (fun k => !isArrayIndex k)

/-- `Object.entries(o)`. -/
def JSObject.entries (o : JSObject) : List (JSString × JSNumber) :=
  o.ownKeys.filterMap (fun k => (o.lookup k).map (fun v => (k, v)))

/-- The object literal `{ ...a, ...b }`. -/
def JSObject.spread (a b : JSObject) : JSObject :=
  b.entries.foldl (fun o p => o.define p.1 p.2) (a.entries.foldl (fun o p => o.define p.1 p.2) [])

/-! ## The host -/

/-- What the script takes from the engine.
* `toLowerCase`: `String.prototype.toLowerCase`, the case conversion of Unicode;
* `numberToString`: the text of a Number, used when a Number is the replacement
  in `String.prototype.replace`;
* `toFixed4`: `Number.prototype.toFixed(4)`;
* `runFunction`: `new Function(body)()`, the value returned or the error thrown;
* `replacePattern name text replacement`: `text.replace(new RegExp(...), ...)`
  for the pattern `\bname\b` when `name` holds pattern syntax or is empty;
* `otherToNumber`, `otherToFixed4`: conversion to Number of a value that is not a
  primitive, and the call `.toFixed(4)` on it. -/
structure Host where
  toLowerCase : JSString → JSString
  numberToString : JSNumber → JSString
  toFixed4 : JSNumber → JSString
  runFunction : JSString → Except JSError JSValue
  replacePattern : JSString → JSString → JSString → Except JSError JSString
  otherToNumber : Nat → Except JSError JSNumber
  otherToFixed4 : Nat → Except JSError JSString

/-- ToNumber. -/
def toNumber (H : Host) : JSValue → Except JSError JSNumber
  | .number x => .ok x
  | .boolean b => .ok (.fin (if b then 1 else 0) 0)
  | .string s => .ok (stringToNumber s)
  | .null => .ok (.fin 0 0)
  | .undefined => .ok .nan
  | .bigint _ => .error (typeError "Cannot convert a BigInt value to a number".toList)
  | .other r => H.otherToNumber r

/-- Global `isFinite(v)`: the argument is converted to a Number first. -/
def globalIsFinite (H : Host) (v : JSValue) : Except JSError Bool :=
  match toNumber H v with
  | .ok x => .ok x.isFinite
  | .error e => .error e

/-- Message of the TypeError for reading a property of null or undefined. -/
def readingMessage (value property : JSString) : JSString :=
  "Cannot read properties of ".toList ++ value ++ " (reading ".toList ++ [apostrophe] ++
    property ++ [apostrophe] ++ [')']

/-- The call `result.toFixed(4)`.  Only Numbers (and what the host says of other
objects) have the method. -/
def callToFixed4 (H : Host) : JSValue → Except JSError JSString
  | .number x => .ok (H.toFixed4 x)
  | .other r => H.otherToFixed4 r
  | .null => .error (typeError (readingMessage "null".toList "toFixed".toList))
  | .undefined => .error (typeError (readingMessage "undefined".toList "toFixed".toList))
  | _ => .error (typeError "result.toFixed is not a function".toList)

/-! ## Regular-expression replacements of evaluateExpression -/

/-- Word characters of the class `\w`. -/
def isWordChar (c : Char) : Bool := c.isAlphanum || c = '_'

/-- Characters with a meaning of their own in a pattern. -/
def isPatternSyntax (c : Char) : Bool := "^$\\.*+?()[]\x7b\x7d|".toList.contains c

/-- A name that, put in a pattern, matches exactly its own text. -/
def isPlainName (name : JSString) : Bool := !name.isEmpty && name.all (fun c => !isPatternSyntax c)

/-- The assertion `\b` between two neighbouring positions. -/
def wordBoundary (before after : Option Char) : Bool :=
  (before.any isWordChar) != (after.any isWordChar)

/-- The pattern `\bname\b` matches at the start of `s`, where `before` is the
character in front of `s`. -/
def wordMatchesAt (name : JSString) (before : Option Char) (s : JSString) : Bool :=
  name.isPrefixOf s && wordBoundary before s.head? &&
    wordBoundary name.getLast? (s.drop name.length).head?

/-- Scan of `text.replace(/\bname\b/g, replacement)`: `skip` counts the characters
of a match still to pass over. -/
def replaceWordGo (name replacement : JSString) : Nat → Option Char → JSString → JSString
  | _, _, [] => []
  | skip + 1, _, c :: cs => replaceWordGo name replacement skip (some c) cs
  | 0, before, c :: cs =>
    if wordMatchesAt name before (c :: cs) then
      replacement ++ replaceWordGo name replacement (name.length - 1) (some c) cs
    else c :: replaceWordGo name replacement 0 (some c) cs

/-- The statement `text.replace(new RegExp("\\b" + name + "\\b", "g"), value)`. -/
def replaceWord (H : Host) (name : JSString) (value : JSNumber) (text : JSString) :
    Except JSError JSString :=
  if isPlainName name then .ok (replaceWordGo name (H.numberToString value) 0 none text)
  else H.replacePattern name text (H.numberToString value)

/-- The call `.replace(/\^/g, "**")`. -/
def replaceCaret (s : JSString) : JSString :=
  s.flatMap (fun c => if c = '^' then ['*', '*'] else [c])

/-- Length of the match of `fname\s*\(` at the start of `s`, if there is one. -/
def callMatchLength (fname s : JSString) : Option Nat :=
  if fname.isPrefixOf s then
    match ((s.drop fname.length).dropWhile isWhiteSpace) with
    | '(' :: _ => some (fname.length + ((s.drop fname.length).takeWhile isWhiteSpace).length + 1)
    | _ => none
  else none

/-- Scan of `.replace(/fname\s*\(/g, "Math.fname(")`. -/
def replaceCallGo (fname : JSString) : Nat → JSString → JSString
  | _, [] => []
  | skip + 1, _ :: cs => replaceCallGo fname skip cs
  | 0, c :: cs =>
    match callMatchLength fname (c :: cs) with
    | some n => "Math.".toList ++ fname ++ ['('] ++ replaceCallGo fname (n - 1) cs
    | none => c :: replaceCallGo fname 0 cs

/-- The call `.replace(/fname\s*\(/g, "Math.fname(")`. -/
def replaceCall (fname s : JSString) : JSString := replaceCallGo fname 0 s

/-! ## The Calculator object -/

/-- One record of the history array. -/
structure HistoryItem where
  expression : JSString
  result : JSString
  timestamp : Nat
  deriving DecidableEq, Repr

/-- The pieces of markup `updateVariablesDisplay` writes into the variables list,
one per template instantiated: a constant (name, formatted value), a user
variable (name, formatted value, with its delete button carrying the name), or
the text shown when there is nothing to list. -/
inductive VarMarkup where
  | constant (name value : JSString)
  | user (name value : JSString)
  | noVariables
  deriving DecidableEq, Repr

/-- The pieces of markup `renderHistory` writes into the history list: one item
per record (expression, result and the text of the `data-index` attribute of the
item and of its delete button), or the text shown for an empty history. -/
inductive HistMarkup where
  | item (expression result dataIndex : JSString)
  | emptyText
  deriving DecidableEq, Repr

/-- The state the methods of the class read and write: the fields `constants`,
`userVariables`, `history`, and the content of the page elements the class holds
(`value` of the inputs, `textContent` of the displays, `style.display` of the
variable error display, `innerHTML` of the two lists). -/
structure Calculator where
  constants : JSObject
  userVariables : JSObject
  history : List HistoryItem
  expressionInput : JSString
  outputDisplay : JSString
  varNameInput : JSString
  varValueInput : JSString
  varErrorText : JSString
  varErrorStyle : JSString
  variablesList : List VarMarkup
  historyList : List HistMarkup
  deriving DecidableEq, Repr

/-- Result of a method that can end by an uncaught exception: the state reached
and the value thrown, if any. -/
structure Outcome where
  state : Calculator
  thrown : Option JSError
  deriving DecidableEq, Repr

/-- `Math.PI`. -/
def mathPI : JSNumber := .fin 3141592653589793 (-15)

/-- `Math.E`. -/
def mathE : JSNumber := .fin 2718281828459045 (-15)

namespace Calculator

/-- The `.map((item, index) => ...)` of renderHistory over the reversed history,
from position `index` on; `length` is `this.history.length`. -/
def renderItems (length : Nat) : Nat → List HistoryItem → List HistMarkup
  | _, [] => []
  | index, item :: rest =>
    .item item.expression item.result (natToString (length - 1 - index)) ::
      renderItems length (index + 1) rest

/-- The markup `renderHistory` builds for a history array (lines 207-229). -/
def historyMarkup (history : List HistoryItem) : List HistMarkup :=
  if history.length = 0 then [.emptyText]
  else renderItems history.length 0 history.reverse

/-- Method `renderHistory` (lines 206-230). -/
def renderHistory (c : Calculator) : Calculator :=
  { c with historyList := historyMarkup c.history }

/-- The markup `updateVariablesDisplay` builds from the two objects (lines
233-259): the constants in the order of `Object.entries`, then the user
variables in the order of their sorted keys. -/
def variablesMarkup (H : Host) (constants userVariables : JSObject) : List VarMarkup :=
  if (sortStrings userVariables.ownKeys).length = 0 ∧ constants.ownKeys.length = 0 then
    [.noVariables]
  else
    constants.entries.map (fun p => VarMarkup.constant p.1 (H.toFixed4 p.2)) ++
      (sortStrings userVariables.ownKeys).filterMap (fun name =>
        (userVariables.lookup name).map (fun value => VarMarkup.user name (H.toFixed4 value)))

/-- Method `updateVariablesDisplay` (lines 232-260). -/
def updateVariablesDisplay (H : Host) (c : Calculator) : Calculator :=
  { c with variablesList := variablesMarkup H c.constants c.userVariables }

/-- Method `saveHistory` (lines 262-272); `now` is the value of `Date.now()`.
`saveLocalHistory` writes to the storage of the browser and catches what that
throws; it does not touch the state. -/
def saveHistory (c : Calculator) (expression result : JSString) (now : Nat) : Calculator :=
  renderHistory { c with history := c.history ++ [⟨expression, result, now⟩] }

/-- Method `deleteHistory` (lines 281-288). -/
def deleteHistory (c : Calculator) (index : JSString) : Calculator :=
  match parseInt index with
  | some idx =>
    if 0 ≤ idx ∧ idx < c.history.length then
      renderHistory { c with history := c.history.eraseIdx idx.toNat }
    else c
  | none => c

/-- Method `handleHistoryClick` (lines 274-279), given the `data-expression` of
the item. -/
def handleHistoryClick (c : Calculator) (expression : JSString) : Calculator :=
  { c with expressionInput := expression, outputDisplay := "Ready".toList }

/-- The variable error display shows `msg`. -/
def showVarError (c : Calculator) (msg : JSString) : Calculator :=
  { c with varErrorText := msg, varErrorStyle := "block".toList }

/-- Text of the error for a name already in use. -/
def reservedNameMessage (varName : JSString) : JSString :=
  "Cannot use reserved name: ".toList ++ [apostrophe] ++ varName ++ [apostrophe]

/-- Text of the error for a numeric name. -/
def numericNameMessage : JSString := "Numbers can not be used as variable names".toList

/-- Method `setVariable` (lines 153-181). -/
def setVariable (H : Host) (c : Calculator) (name value : JSString) : Outcome :=
  let varName := trim name
  let varValue := parseFloat value
  let c1 := { c with varErrorStyle := "none".toList }
  if varName = [] then ⟨showVarError c1 "Name is required.".toList, none⟩
  else if varValue.isNaN then ⟨showVarError c1 "Valid value is required for variable".toList, none⟩
  else
    match c1.userVariables.callHasOwnProperty "this.userVariables".toList varName with
    | .error e => ⟨c1, some e⟩
    | .ok true => ⟨showVarError c1 (reservedNameMessage varName), none⟩
    | .ok false =>
      match c1.constants.callHasOwnProperty "this.constants".toList varName with
      | .error e => ⟨c1, some e⟩
      | .ok true => ⟨showVarError c1 (reservedNameMessage varName), none⟩
      | .ok false =>
        if (stringToNumber varName).numEq (stringToNumber varName) then
          ⟨showVarError c1 numericNameMessage, none⟩
        else
          let c2 := updateVariablesDisplay H
            { c1 with userVariables := c1.userVariables.assign varName varValue }
          ⟨{ c2 with varNameInput := [], varValueInput := [] }, none⟩

/-- Method `deleteVariable` (lines 183-186). -/
def deleteVariable (H : Host) (c : Calculator) (name : JSString) : Calculator :=
  updateVariablesDisplay H { c with userVariables := c.userVariables.delete name }

/-- Text of the function body built at lines 65-67. -/
def functionBody (processedExpression : JSString) : JSString :=
  [apostrophe] ++ "use strict".toList ++ [apostrophe] ++ "; return (".toList ++
    processedExpression ++ [')']

/-- The loop of lines 49-52 over the entries still to be processed. -/
def replaceVariables (H : Host) : List (JSString × JSNumber) → JSString → Except JSError JSString
  | [], text => .ok text
  | (name, value) :: rest, text =>
    match replaceWord H name value text with
    | .ok replaced => replaceVariables H rest replaced
    | .error e => .error e

/-- Lines 45-61 of `evaluateExpression`: the text handed to the engine.  Each
variable is replaced in the order of `Object.entries`. -/
def processExpression (H : Host) (c : Calculator) (expression : JSString) :
    Except JSError JSString :=
  match replaceVariables H (c.constants.spread c.userVariables).entries
      (H.toLowerCase (trim expression)) with
  | .ok text =>
    .ok (replaceCall "tan".toList (replaceCall "cos".toList (replaceCall "sin".toList
      (replaceCall "sqrt".toList (replaceCaret text)))))
  | .error e => .error e

/-- The error thrown at lines 69-73. -/
def divisionError : JSError :=
  ⟨"Error".toList, some "Division by zero or invalid operation resulting in Infinity.".toList⟩

/-- Method `evaluateExpression` (lines 44-76). -/
def evaluateExpression (H : Host) (c : Calculator) (expression : JSString) :
    Except JSError JSValue :=
  match processExpression H c expression with
  | .error e => .error e
  | .ok processedExpression =>
    match H.runFunction (functionBody processedExpression) with
    | .error e => .error e
    | .ok result =>
      match globalIsFinite H result with
      | .error e => .error e
      | .ok false => .error divisionError
      | .ok true => .ok result

/-- The message chosen in the `catch` block of `calculate` (lines 92-107). -/
def errorMessageFor (message : JSString) : JSString :=
  if includes message "Mismatched parenthesis".toList ∨ includes message "missing )".toList then
    "ERROR: Parenthesis mismatch.".toList
  else if includes message "Division by zero".toList ∨ includes message "Infinity".toList then
    "ERROR: Division by zero or resulting in an infinity.".toList
  else if includes message "is not defined".toList then
    "ERROR: Undefined variable or invalid syntax.".toList
  else if includes message "unexpected token".toList then
    "ERROR: Malformed expression syntax.".toList
  else "ERROR: Invalid Expression".toList

/-- Method `calculate` (lines 78-111); `now` is the value of `Date.now()`.  For a
thrown value without a text under `message` the call `error.message.includes`
of the `catch` block itself throws a TypeError. -/
def calculate (H : Host) (now : Nat) (c : Calculator) : Outcome :=
  let expression := c.expressionInput
  if trim expression = [] then
    ⟨{ c with outputDisplay := "Please enter an expression.".toList }, none⟩
  else
    match evaluateExpression H c expression with
    | .ok result =>
      match callToFixed4 H result with
      | .ok formattedResult =>
        ⟨saveHistory { c with outputDisplay := formattedResult } expression formattedResult now, none⟩
      | .error e =>
        match e.message with
        | some message => ⟨{ c with outputDisplay := errorMessageFor message }, none⟩
        | none => ⟨c, some (typeError (readingMessage "undefined".toList "includes".toList))⟩
    | .error e =>
      match e.message with
      | some message => ⟨{ c with outputDisplay := errorMessageFor message }, none⟩
      | none => ⟨c, some (typeError (readingMessage "undefined".toList "includes".toList))⟩

/-- Method `appendValue` (lines 40-42). -/
def appendValue (c : Calculator) (value : JSString) : Calculator :=
  { c with expressionInput := c.expressionInput ++ value }

end Calculator

/-- Content of the page elements when the script starts. -/
structure Page where
  expressionInput : JSString
  outputDisplay : JSString
  varNameInput : JSString
  varValueInput : JSString
  varErrorText : JSString
  varErrorStyle : JSString

/-- The constructor (lines 2-20); `stored` is what `loadLocalHistory` returns. -/
def Calculator.constructor (H : Host) (page : Page) (stored : List HistoryItem) : Calculator :=
  Calculator.renderHistory (Calculator.updateVariablesDisplay H
    { constants := [("pi".toList, mathPI), ("e".toList, mathE)]
      userVariables := []
      history := stored
      expressionInput := page.expressionInput
      outputDisplay := page.outputDisplay
      varNameInput := page.varNameInput
      varValueInput := page.varValueInput
      varErrorText := page.varErrorText
      varErrorStyle := page.varErrorStyle
      variablesList := []
      historyList := [] })

/-! ## A reference for the host

`Ref.toLowerCase`, `Ref.numberToString`, `Ref.toFixed4` and `Ref.run` describe
what an ECMAScript
engine does on a fragment of its inputs, and answer `none` outside that
fragment.  A host conforms when it agrees with them wherever they answer. -/

namespace Ref

/-- `String.prototype.toLowerCase` for a text of ASCII characters. -/
def toLowerCase (s : JSString) : Option JSString :=
  if s.all (fun c => decide (c.toNat < 128)) then some (toLowerCaseAscii s) else none

/-- Number::toString for NaN, the infinities, integers up to 2^53 in absolute
value, and the two constants of the script. -/
def numberToString : JSNumber → Option JSString
  | .nan => some "NaN".toList
  | .posInf => some "Infinity".toList
  | .negInf => some "-Infinity".toList
  | .fin m e =>
    if JSNumber.fin m e = mathPI then some "3.141592653589793".toList
    else if JSNumber.fin m e = mathE then some "2.718281828459045".toList
    else if 0 ≤ e ∧ e ≤ 16 ∧ m.natAbs * 10 ^ e.toNat ≤ 2 ^ 53 then
      some ((if m < 0 then ['-'] else []) ++ natToString (m.natAbs * 10 ^ e.toNat))
    else none

/-- Four digits of a number below 10000, with leading zeros. -/
def pad4 (n : Nat) : JSString :=
  [Nat.digitChar (n / 1000 % 10), Nat.digitChar (n / 100 % 10), Nat.digitChar (n / 10 % 10),
    Nat.digitChar (n % 10)]

/-- `Number.prototype.toFixed(4)` for NaN, the infinities, the two constants of
the script, and the multiples of 10^-4 below 2^52 * 10^-4 in absolute value
(for these the nearest binary64 value rounds back to the same four decimals). -/
def toFixed4 : JSNumber → Option JSString
  | .nan => some "NaN".toList
  | .posInf => some "Infinity".toList
  | .negInf => some "-Infinity".toList
  | .fin m e =>
    if JSNumber.fin m e = mathPI then some "3.1416".toList
    else if JSNumber.fin m e = mathE then some "2.7183".toList
    else if -4 ≤ e ∧ e ≤ 12 ∧ m.natAbs * 10 ^ (e + 4).toNat < 2 ^ 52 then
      some ((if m < 0 then ['-'] else []) ++
        natToString (m.natAbs * 10 ^ (e + 4).toNat / 10000) ++ ['.'] ++
        pad4 (m.natAbs * 10 ^ (e + 4).toNat % 10000))
    else none

/-- Tokens of the expression fragment. -/
inductive Token where
  | num (intDigits fracDigits : List Char)
  | lit (v : JSValue)
  | plus
  | minus
  | star
  | slash
  | pow
  | lparen
  | rparen
  deriving DecidableEq, Repr

/-- What the lexer has read of a token not yet complete. -/
inductive LexState where
  | idle
  | int (ds : List Char)
  | frac (ds fs : List Char)
  | word (w : List Char)
  | plus
  | minus
  | star
  | slash
  deriving DecidableEq, Repr

/-- Characters that continue an identifier. -/
def isIdentChar (c : Char) : Bool := c.isAlphanum || c = '_' || c = '$'

/-- The tokens a pending item gives when it ends; none when the item is not in
the fragment (a word other than `true`, `false`, `null`; a literal with a
leading zero; a lone point). -/
def closeState : LexState → Option (List Token)
  | .idle => some []
  | .int ds => if ds.length > 1 ∧ ds.head? = some '0' then none else some [.num ds []]
  | .frac ds fs =>
    if (ds.isEmpty ∧ fs.isEmpty) ∨ (ds.length > 1 ∧ ds.head? = some '0') then none
    else some [.num ds fs]
  | .word w =>
    if w = "true".toList then some [.lit (.boolean true)]
    else if w = "false".toList then some [.lit (.boolean false)]
    else if w = "null".toList then some [.lit .null]
    else none
  | .plus => some [.plus]
  | .minus => some [.minus]
  | .star => some [.star]
  | .slash => some [.slash]

/-- Effect of a character when no token is pending; none for a character outside
the fragment. -/
def startChar (c : Char) : Option (List Token × LexState) :=
  if c = ' ' ∨ c = '\t' then some ([], .idle)
  else if c.isDigit then some ([], .int [c])
  else if c = '.' then some ([], .frac [] [])
  else if c.isAlpha then some ([], .word [c])
  else if c = '+' then some ([], .plus)
  else if c = '-' then some ([], .minus)
  else if c = '*' then some ([], .star)
  else if c = '/' then some ([], .slash)
  else if c = '(' then some ([.lparen], .idle)
  else if c = ')' then some ([.rparen], .idle)
  else none

/-- The pending item ends in front of `c`, and `c` starts afresh. -/
def closeThenStart (st : LexState) (c : Char) : Option (List Token × LexState) :=
  match closeState st, startChar c with
  | some ts, some (ts', st') => some (ts ++ ts', st')
  | _, _ => none

/-- One character of input.  The doubled signs `++` and `--`, the comment
openers `//` and `/*` and a literal running into an identifier, an exponent or a
second point are outside the fragment. -/
def lexStep (st : LexState) (c : Char) : Option (List Token × LexState) :=
  match st with
  | .idle => startChar c
  | .int ds =>
    if c.isDigit then some ([], .int (ds ++ [c]))
    else if c = '.' then some ([], .frac ds [])
    else if isIdentChar c then none
    else closeThenStart (.int ds) c
  | .frac ds fs =>
    if c.isDigit then some ([], .frac ds (fs ++ [c]))
    else if c = '.' ∨ isIdentChar c then none
    else closeThenStart (.frac ds fs) c
  | .word w =>
    if isIdentChar c then some ([], .word (w ++ [c]))
    else closeThenStart (.word w) c
  | .plus => if c = '+' then none else closeThenStart .plus c
  | .minus => if c = '-' then none else closeThenStart .minus c
  | .star => if c = '*' then some ([.pow], .idle) else closeThenStart .star c
  | .slash => if c = '/' ∨ c = '*' then none else closeThenStart .slash c

/-- The tokens of a text, none when the text leaves the fragment. -/
def lexGo : LexState → List Char → Option (List Token)
  | st, [] => closeState st
  | st, c :: cs =>
    match lexStep st c with
    | none => none
    | some (ts, st') =>
      match lexGo st' cs with
      | none => none
      | some rest => some (ts ++ rest)

/-- Expressions of the fragment. -/
inductive Expr where
  | num (intDigits fracDigits : List Char)
  | lit (v : JSValue)
  | neg (e : Expr)
  | pos (e : Expr)
  | add (l r : Expr)
  | sub (l r : Expr)
  | mul (l r : Expr)
  | div (l r : Expr)
  | pow (l r : Expr)
  deriving DecidableEq, Repr

/-- Result of parsing: an expression and the tokens after it, a syntax error of
the language, or an input outside the fragment. -/
inductive Parsed where
  | ok (e : Expr) (rest : List Token)
  | syntaxError
  | outside
  deriving DecidableEq, Repr

mutual

/-- PrimaryExpression: a literal or a parenthesised expression.  A `/` here
starts a regular-expression literal, and a `(` after the operand a call: both
are outside the fragment. -/
def parsePrimary : Nat → List Token → Parsed
  | 0, _ => .outside
  | fuel + 1, ts =>
    match ts with
    | [] => .syntaxError
    | .num ds fs :: rest =>
      (match rest with
       | .lparen :: _ => .outside
       | _ => .ok (.num ds fs) rest)
    | .lit v :: rest =>
      (match rest with
       | .lparen :: _ => .outside
       | _ => .ok (.lit v) rest)
    | .lparen :: rest =>
      (match parseAdditive fuel rest with
       | .ok _ (.rparen :: .lparen :: _) => .outside
       | .ok e (.rparen :: rest') => .ok e rest'
       | .ok _ (.lparen :: _) => .outside
       | .ok _ _ => .syntaxError
       | .syntaxError => .syntaxError
       | .outside => .outside)
    | .slash :: _ => .outside
    | _ => .syntaxError

/-- UnaryExpression: signs in front of an operand. -/
def parseUnary : Nat → List Token → Parsed
  | 0, _ => .outside
  | fuel + 1, ts =>
    match ts with
    | .minus :: rest =>
      (match parseUnary fuel rest with
       | .ok e rest' => .ok (.neg e) rest'
       | r => r)
    | .plus :: rest =>
      (match parseUnary fuel rest with
       | .ok e rest' => .ok (.pos e) rest'
       | r => r)
    | _ => parsePrimary fuel ts

/-- ExponentiationExpression: `UnaryExpression`, or `UpdateExpression **
ExponentiationExpression`.  The left operand of `**` cannot be a unary
expression: a sign in front of it is a syntax error. -/
def parseExponent : Nat → List Token → Parsed
  | 0, _ => .outside
  | fuel + 1, ts =>
    match ts with
    | .minus :: _ =>
      (match parseUnary fuel ts with
       | .ok _ (.pow :: _) => .syntaxError
       | r => r)
    | .plus :: _ =>
      (match parseUnary fuel ts with
       | .ok _ (.pow :: _) => .syntaxError
       | r => r)
    | _ =>
      (match parsePrimary fuel ts with
       | .ok base (.pow :: rest) =>
         (match parseExponent fuel rest with
          | .ok e rest' => .ok (.pow base e) rest'
          | r => r)
       | r => r)

/-- The operators `*` and `/` after a left operand. -/
def parseMultRest : Nat → Expr → List Token → Parsed
  | 0, _, _ => .outside
  | fuel + 1, lhs, ts =>
    match ts with
    | .star :: rest =>
      (match parseExponent fuel rest with
       | .ok r rest' => parseMultRest fuel (.mul lhs r) rest'
       | r => r)
    | .slash :: rest =>
      (match parseExponent fuel rest with
       | .ok r rest' => parseMultRest fuel (.div lhs r) rest'
       | r => r)
    | _ => .ok lhs ts

/-- The operators `+` and `-` after a left operand. -/
def parseAddRest : Nat → Expr → List Token → Parsed
  | 0, _, _ => .outside
  | fuel + 1, lhs, ts =>
    match ts with
    | .plus :: rest =>
      (match parseExponent fuel rest with
       | .ok r rest' =>
         (match parseMultRest fuel r rest' with
          | .ok r' rest'' => parseAddRest fuel (.add lhs r') rest''
          | q => q)
       | r => r)
    | .minus :: rest =>
      (match parseExponent fuel rest with
       | .ok r rest' =>
         (match parseMultRest fuel r rest' with
          | .ok r' rest'' => parseAddRest fuel (.sub lhs r') rest''
          | q => q)
       | r => r)
    | _ => .ok lhs ts

/-- AdditiveExpression. -/
def parseAdditive : Nat → List Token → Parsed
  | 0, _ => .outside
  | fuel + 1, ts =>
    match parseExponent fuel ts with
    | .ok l rest =>
      (match parseMultRest fuel l rest with
       | .ok l' rest' => parseAddRest fuel l' rest'
       | q => q)
    | r => r

end

/-- An integer Number, when it is at most 2^53 in absolute value. -/
def safeInt (n : Int) : Option JSValue :=
  if n.natAbs ≤ 2 ^ 53 then some (.number (.fin n 0)) else none

/-- Value of an expression, for integer literals and integer results up to 2^53
in absolute value (on these binary64 arithmetic is exact) and for a division by
zero; none elsewhere, and where the result would be a negative zero. -/
def eval : Expr → Option JSValue
  | .num ds fs => if fs.isEmpty then safeInt (digitsValue ds) else none
  | .lit v => some v
  | .neg e =>
    (match eval e with
     | some (.number (.fin n 0)) => if n = 0 then none else safeInt (-n)
     | _ => none)
  | .pos e =>
    (match eval e with
     | some (.number (.fin n 0)) => some (.number (.fin n 0))
     | _ => none)
  | .add l r =>
    (match eval l, eval r with
     | some (.number (.fin a 0)), some (.number (.fin b 0)) => safeInt (a + b)
     | _, _ => none)
  | .sub l r =>
    (match eval l, eval r with
     | some (.number (.fin a 0)), some (.number (.fin b 0)) => safeInt (a - b)
     | _, _ => none)
  | .mul l r =>
    (match eval l, eval r with
     | some (.number (.fin a 0)), some (.number (.fin b 0)) =>
       if a * b = 0 ∧ (a < 0 ∨ b < 0) then none else safeInt (a * b)
     | _, _ => none)
  | .div l r =>
    (match eval l, eval r with
     | some (.number (.fin a 0)), some (.number (.fin b 0)) =>
       if b = 0 then
         some (.number (if 0 < a then .posInf else if a < 0 then .negInf else .nan))
       else if a % b = 0 ∧ ¬ (a = 0 ∧ b < 0) then safeInt (a / b)
       else none
     | _, _ => none)
  | .pow l r =>
    (match eval l, eval r with
     | some (.number (.fin a 0)), some (.number (.fin b 0)) =>
       if 0 ≤ b ∧ b ≤ 64 then safeInt (a ^ b.toNat) else none
     | _, _ => none)

/-- What running a function body gives: a value, or a thrown SyntaxError. -/
inductive Run where
  | value (v : JSValue)
  | syntaxError
  deriving DecidableEq, Repr

/-- Start of every function body the script builds. -/
def bodyPrefix : JSString :=
  [apostrophe] ++ "use strict".toList ++ [apostrophe] ++ "; return ".toList

/-- The call `new Function(body)()` for a body `'use strict'; return E` with `E`
in the fragment: a SyntaxError when `E` does not parse, else the value of `E`. -/
def run (body : JSString) : Option Run :=
  if bodyPrefix.isPrefixOf body then
    match lexGo .idle (body.drop bodyPrefix.length) with
    | none => none
    | some ts =>
      match parseAdditive (6 * ts.length + 6) ts with
      | .ok e [] => (eval e).map Run.value
      | .ok _ (.lparen :: _) => none
      | .ok _ (_ :: _) => some .syntaxError
      | .syntaxError => some .syntaxError
      | .outside => none
  else none

end Ref

/-- The host agrees with the reference wherever the reference answers. -/
def Conforms (H : Host) : Prop :=
  (∀ t s, Ref.toLowerCase t = some s → H.toLowerCase t = s) ∧
  (∀ x s, Ref.numberToString x = some s → H.numberToString x = s) ∧
  (∀ x s, Ref.toFixed4 x = some s → H.toFixed4 x = s) ∧
  (∀ body v, Ref.run body = some (.value v) → H.runFunction body = .ok v) ∧
  (∀ body, Ref.run body = some .syntaxError →
    ∃ msg, H.runFunction body = .error ⟨"SyntaxError".toList, some msg⟩)

/-- The function runner of the reference host: the answer of the reference, and
outside its fragment an error of no significance. -/
def refRunFunction (body : JSString) : Except JSError JSValue :=
  match Ref.run body with
  | some (.value v) => .ok v
  | some .syntaxError => .error ⟨"SyntaxError".toList, some "Unexpected token".toList⟩
  | none => .error ⟨"Error".toList, none⟩

/-- A host built from the reference.  Outside the fragment of the reference it
answers with fixed values of no significance. -/
def refHost : Host where
  toLowerCase := toLowerCaseAscii
  numberToString x := (Ref.numberToString x).getD []
  toFixed4 x := (Ref.toFixed4 x).getD []
  runFunction := refRunFunction
  replacePattern _ text _ := .ok text
  otherToNumber _ := .ok .nan
  otherToFixed4 _ := .error (typeError "result.toFixed is not a function".toList)

/-- An empty page. -/
def blankPage : Page := ⟨[], [], [], [], [], []⟩

/-! ## Sequences of calls -/

/-- A call of one of the two methods that change the symbol table. -/
inductive VarOp where
  | set (name value : JSString)
  | delete (name : JSString)
  deriving DecidableEq, Repr

/-- The state after one call (an exception thrown by `setVariable` ends the event
handler; the state reached stays). -/
def Calculator.applyOp (H : Host) (c : Calculator) : VarOp → Calculator
  | .set name value => (Calculator.setVariable H c name value).state
  | .delete name => Calculator.deleteVariable H c name

/-- The state after a sequence of calls. -/
def Calculator.runOps (H : Host) (c : Calculator) (ops : List VarOp) : Calculator :=
  ops.foldl (Calculator.applyOp H) c

/-- The call `setVariable(name, value)` passes the four guards of lines 159-175
without an exception and reaches the assignment of line 177. -/
def Calculator.passesGuards (c : Calculator) (name value : JSString) : Bool :=
  !(trim name).isEmpty && !(parseFloat value).isNaN &&
  !c.userVariables.hasOwn hasOwnPropertyKey && !c.userVariables.hasOwn (trim name) &&
  !c.constants.hasOwn hasOwnPropertyKey && !c.constants.hasOwn (trim name) &&
  !(stringToNumber (trim name)).numEq (stringToNumber (trim name))

/-! ## Notions used in the statements -/

/-- The two layers of the symbol table share no name. -/
def LayersDisjoint (c : Calculator) : Prop :=
  ∀ k, c.constants.hasOwn k = true → c.userVariables.hasOwn k = false

/-- Plain numeric literals, as used in the statement on unary minus and
exponentiation: a run of decimal digits without a superfluous leading zero, optionally followed by a
point and a run of digits. -/
def isDecimalLiteral (s : JSString) : Bool :=
  !(s.takeWhile Char.isDigit).isEmpty &&
  !(decide ((s.takeWhile Char.isDigit).length > 1) && (s.takeWhile Char.isDigit).head? == some '0') &&
  (match s.dropWhile Char.isDigit with
   | [] => true
   | '.' :: fp => !fp.isEmpty && fp.all Char.isDigit
   | _ => false)

/-- Characters of a text made of numeric literals, signs, carets and stars. -/
def IsArithChar (c : Char) : Prop :=
  c.isDigit = true ∨ c = '.' ∨ c = '-' ∨ c = '^' ∨ c = '*'

/-- The net set of user variables after a sequence of calls, as a map from names
to values, starting from the map `m` in the state `c`: a `setVariable` that
passes the guards defines the trimmed name with the parsed value, any other
`setVariable` changes nothing, and a `deleteVariable` removes the name. -/
def netVariables (H : Host) :
    Calculator → List VarOp → (JSString → Option JSNumber) → JSString → Option JSNumber
  | _, [], m => m
  | c, .set name value :: rest, m =>
    netVariables H (Calculator.applyOp H c (.set name value)) rest
      (if c.passesGuards name value then
        (fun k => if k = trim name then some (parseFloat value) else m k)
      else m)
  | c, .delete name :: rest, m =>
    netVariables H (Calculator.applyOp H c (.delete name)) rest
      (fun k => if k = name then none else m k)

/-- The variables list shows what `updateVariablesDisplay` builds from the two
objects of the state. -/
def DisplayInSync (H : Host) (c : Calculator) : Prop :=
  c.variablesList = Calculator.variablesMarkup H c.constants c.userVariables

/-- The own property names of the user variables are pairwise different. -/
def KeysDistinct (c : Calculator) : Prop := (c.userVariables.map Prod.fst).Nodup

/-- Every name of a user variable is a non-empty text that `Number` does not read
as a number. -/
def NamesValid (c : Calculator) : Prop :=
  ∀ k, c.userVariables.hasOwn k = true → k ≠ [] ∧ (stringToNumber k).isNaN = true

/-! # Theorems -/

open Calculator

/-! ## Own properties of the two objects -/

theorem JSObject.lookup_delete_ne (o : JSObject) (k name : JSString) (h : k ≠ name) :
    (o.delete name).lookup k = o.lookup k := by
  induction o with
  | nil => rfl
  | cons p rest ih =>
    obtain ⟨k', v'⟩ := p
    unfold JSObject.delete at ih ⊢
    rw [List.filter_cons]
    by_cases hk : k' = name
    · subst hk
      have hb : (k == k') = false := beq_false_of_ne h
      rw [if_neg (by simp), List.lookup_cons, hb]
      exact ih
    · rw [if_pos (by simpa using hk), List.lookup_cons, List.lookup_cons, ih]

theorem JSObject.delete_of_not_hasOwn (o : JSObject) (name : JSString)
    (h : o.hasOwn name = false) : o.delete name = o := by
  induction o with
  | nil => rfl
  | cons p rest ih =>
    obtain ⟨k', v'⟩ := p
    unfold JSObject.hasOwn at h ih
    unfold JSObject.delete at ih ⊢
    rw [List.lookup_cons] at h
    rw [List.filter_cons]
    by_cases hk : name = k'
    · subst hk
      rw [beq_self_eq_true] at h
      simp at h
    · have hb : (name == k') = false := beq_false_of_ne hk
      rw [hb] at h
      rw [if_pos (by simpa using Ne.symm hk), ih h]

theorem JSObject.hasOwn_delete_self (o : JSObject) (name : JSString) :
    (o.delete name).hasOwn name = false := by
  induction o with
  | nil => rfl
  | cons p rest ih =>
    obtain ⟨k', v'⟩ := p
    unfold JSObject.hasOwn at ih ⊢
    unfold JSObject.delete at ih ⊢
    rw [List.filter_cons]
    by_cases hk : k' = name
    · rw [if_neg (by simpa using hk)]
      exact ih
    · have hb : (name == k') = false := beq_false_of_ne (Ne.symm hk)
      rw [if_pos (by simpa using hk), List.lookup_cons, hb]
      exact ih

theorem JSObject.lookup_define (o : JSObject) (k k' : JSString) (v : JSNumber) :
    (o.define k v).lookup k' = if k' = k then some v else o.lookup k' := by
  induction o with
  | nil =>
    unfold JSObject.define
    rw [List.lookup_cons]
    by_cases h : k' = k
    · rw [if_pos h, h, beq_self_eq_true]
    · rw [if_neg h, beq_false_of_ne h]
  | cons p rest ih =>
    obtain ⟨k0, v0⟩ := p
    unfold JSObject.define
    by_cases h0 : k0 = k
    · rw [if_pos h0, List.lookup_cons, List.lookup_cons]
      subst h0
      by_cases h : k' = k0
      · rw [if_pos h, h, beq_self_eq_true]
      · rw [if_neg h, beq_false_of_ne h]
    · rw [if_neg h0, List.lookup_cons, List.lookup_cons, ih]
      by_cases h : k' = k
      · have : (k' == k0) = false := beq_false_of_ne (by rw [h]; exact Ne.symm h0)
        rw [this]
      · simp only [if_neg h]

theorem JSObject.hasOwn_assign (o : JSObject) (k k' : JSString) (v : JSNumber)
    (h : (o.assign k v).hasOwn k' = true) : k' = k ∨ o.hasOwn k' = true := by
  unfold JSObject.assign at h
  split at h
  · unfold JSObject.hasOwn at h ⊢
    rw [JSObject.lookup_define] at h
    by_cases hk : k' = k
    · exact Or.inl hk
    · rw [if_neg hk] at h; exact Or.inr h
  · split at h
    · exact Or.inr h
    · unfold JSObject.hasOwn at h ⊢
      rw [JSObject.lookup_define] at h
      by_cases hk : k' = k
      · exact Or.inl hk
      · rw [if_neg hk] at h; exact Or.inr h

theorem JSObject.hasOwn_of_hasOwn_delete (o : JSObject) (k name : JSString)
    (h : (o.delete name).hasOwn k = true) : o.hasOwn k = true := by
  by_cases hk : k = name
  · subst hk
    rw [JSObject.hasOwn_delete_self] at h
    exact absurd h (by decide)
  · unfold JSObject.hasOwn at h ⊢
    rw [JSObject.lookup_delete_ne _ _ _ hk] at h
    exact h

theorem callHasOwnProperty_ok (r : JSString) (o : JSObject) (k : JSString) (b : Bool)
    (h : o.callHasOwnProperty r k = .ok b) :
    o.hasOwn hasOwnPropertyKey = false ∧ o.hasOwn k = b := by
  unfold JSObject.callHasOwnProperty at h
  split at h
  · cases h
  · rename_i hn
    injection h with h
    exact ⟨by simpa using hn, h⟩

/-- What `setVariable` does to the two objects. -/
theorem setVariable_tables (H : Host) (c : Calculator) (name value : JSString) :
    (setVariable H c name value).state.constants = c.constants ∧
    (setVariable H c name value).state.userVariables =
      if c.passesGuards name value then c.userVariables.assign (trim name) (parseFloat value)
      else c.userVariables := by
  unfold setVariable passesGuards
  simp only []
  split
  · rename_i h; simp [h, showVarError]
  · rename_i h
    split
    · rename_i h2; simp [h2, showVarError]
    · rename_i h2
      split
      · rename_i e he
        have : c.userVariables.hasOwn hasOwnPropertyKey = true := by
          unfold JSObject.callHasOwnProperty at he
          split at he
          · assumption
          · cases he
        simp [this]
      · rename_i he
        have := callHasOwnProperty_ok _ _ _ _ he
        simp [this.2, showVarError]
      · rename_i he
        have hu := callHasOwnProperty_ok _ _ _ _ he
        split
        · rename_i e he2
          have : c.constants.hasOwn hasOwnPropertyKey = true := by
            unfold JSObject.callHasOwnProperty at he2
            split at he2
            · assumption
            · cases he2
          simp [this]
        · rename_i he2
          have := callHasOwnProperty_ok _ _ _ _ he2
          simp [this.2, showVarError]
        · rename_i he2
          have hc := callHasOwnProperty_ok _ _ _ _ he2
          split
          · rename_i h3
            simp [h3, showVarError]
          · rename_i h3
            simp [h, h2, hu.1, hu.2, hc.1, hc.2, h3, updateVariablesDisplay]

theorem passesGuards_constants (c : Calculator) (name value : JSString)
    (h : c.passesGuards name value = true) : c.constants.hasOwn (trim name) = false := by
  unfold passesGuards at h
  simp only [Bool.and_eq_true, Bool.not_eq_true'] at h
  exact h.1.2

theorem passesGuards_userVariables (c : Calculator) (name value : JSString)
    (h : c.passesGuards name value = true) : c.userVariables.hasOwn (trim name) = false := by
  unfold passesGuards at h
  simp only [Bool.and_eq_true, Bool.not_eq_true'] at h
  exact h.1.1.1.2

theorem applyOp_constants (H : Host) (c : Calculator) (op : VarOp) :
    (applyOp H c op).constants = c.constants := by
  cases op with
  | set name value => exact (setVariable_tables H c name value).1
  | delete name => rfl

theorem applyOp_layersDisjoint (H : Host) (c : Calculator) (op : VarOp)
    (h : LayersDisjoint c) : LayersDisjoint (applyOp H c op) := by
  intro k hk
  rw [applyOp_constants] at hk
  cases op with
  | set name value =>
    show (setVariable H c name value).state.userVariables.hasOwn k = false
    rw [(setVariable_tables H c name value).2]
    split
    · rename_i hp
      cases hres : (c.userVariables.assign (trim name) (parseFloat value)).hasOwn k with
      | false => rfl
      | true =>
        rcases JSObject.hasOwn_assign _ _ _ _ hres with h1 | h1
        · rw [h1, passesGuards_constants c name value hp] at hk
          exact absurd hk (by decide)
        · rw [h k hk] at h1
          exact absurd h1 (by decide)
    · exact h k hk
  | delete name =>
    show (c.userVariables.delete name).hasOwn k = false
    cases hres : (c.userVariables.delete name).hasOwn k with
    | false => rfl
    | true =>
      have := JSObject.hasOwn_of_hasOwn_delete _ _ _ hres
      rw [h k hk] at this
      exact absurd this (by decide)

theorem runOps_constants (H : Host) (ops : List VarOp) (c : Calculator) :
    (runOps H c ops).constants = c.constants := by
  induction ops generalizing c with
  | nil => rfl
  | cons op rest ih =>
    show (runOps H (applyOp H c op) rest).constants = _
    rw [ih, applyOp_constants]

theorem runOps_layersDisjoint (H : Host) (ops : List VarOp) (c : Calculator)
    (h : LayersDisjoint c) : LayersDisjoint (runOps H c ops) := by
  induction ops generalizing c with
  | nil => exact h
  | cons op rest ih => exact ih _ (applyOp_layersDisjoint H c op h)

/-! ## Decimal text of an index, and the history markup -/

theorem digitChar_isDigit (d : Nat) (h : d < 10) :
    (Nat.digitChar d).isDigit = true ∧ digitValue (Nat.digitChar d) = d := by
  interval_cases d <;> exact ⟨by decide, by decide⟩

theorem toDigitsCore_spec (fuel : Nat) : ∀ (n : Nat) (ds : List Char), n < fuel →
    (∀ c ∈ ds, c.isDigit = true) →
    (∀ c ∈ Nat.toDigitsCore 10 fuel n ds, c.isDigit = true) ∧
    (Nat.toDigitsCore 10 fuel n ds).foldl (fun acc c => acc * 10 + digitValue c) 0 =
      ds.foldl (fun acc c => acc * 10 + digitValue c) n := by
  induction fuel with
  | zero => intro n ds h; exact absurd h (Nat.not_lt_zero _)
  | succ fuel ih =>
    intro n ds hn hds
    have hd := digitChar_isDigit (n % 10) (Nat.mod_lt _ (by decide))
    have hcons : ∀ c ∈ Nat.digitChar (n % 10) :: ds, c.isDigit = true := by
      intro c hc
      rcases List.mem_cons.1 hc with h | h
      · rw [h]; exact hd.1
      · exact hds c h
    unfold Nat.toDigitsCore
    simp only []
    by_cases h0 : n / 10 = 0
    · rw [if_pos h0]
      refine ⟨hcons, ?_⟩
      rw [List.foldl_cons, hd.2]
      have : n % 10 = n := by omega
      rw [Nat.zero_mul, Nat.zero_add, this]
    · rw [if_neg h0]
      have hlt : n / 10 < fuel := by omega
      obtain ⟨h1, h2⟩ := ih (n / 10) (Nat.digitChar (n % 10) :: ds) hlt hcons
      refine ⟨h1, ?_⟩
      rw [h2, List.foldl_cons, hd.2]
      have : n / 10 * 10 + n % 10 = n := by omega
      rw [this]

theorem toDigitsCore_ne_nil (fuel : Nat) : ∀ (n : Nat) (ds : List Char), ds ≠ [] →
    Nat.toDigitsCore 10 fuel n ds ≠ [] := by
  induction fuel with
  | zero => intro n ds h; exact h
  | succ fuel ih =>
    intro n ds _
    unfold Nat.toDigitsCore
    simp only []
    split
    · exact List.cons_ne_nil _ _
    · exact ih _ _ (List.cons_ne_nil _ _)

theorem natToString_spec (n : Nat) :
    (∀ c ∈ natToString n, c.isDigit = true) ∧ digitsValue (natToString n) = n ∧
      natToString n ≠ [] := by
  have h := toDigitsCore_spec (n + 1) n [] (Nat.lt_succ_self n) (by intro c hc; cases hc)
  refine ⟨h.1, h.2, ?_⟩
  unfold natToString Nat.toDigits Nat.toDigitsCore
  simp only []
  split
  · exact List.cons_ne_nil _ _
  · exact toDigitsCore_ne_nil _ _ _ (List.cons_ne_nil _ _)

theorem isDigit_bounds (c : Char) (h : c.isDigit = true) : 48 ≤ c.toNat ∧ c.toNat ≤ 57 := by
  unfold Char.isDigit at h
  simp only [Bool.and_eq_true, decide_eq_true_eq] at h
  have h1 : (48 : UInt32) ≤ c.val := h.1
  have h2 : c.val ≤ (57 : UInt32) := h.2
  constructor
  · exact h1
  · exact h2

theorem isDigit_not_whiteSpace (c : Char) (h : c.isDigit = true) : isWhiteSpace c = false := by
  have hb := isDigit_bounds c h
  unfold isWhiteSpace
  simp only [Bool.or_eq_false_iff, Bool.and_eq_false_iff, decide_eq_false_iff_not]
  omega

theorem radixDigit_ten (c : Char) (h : c.isDigit = true) :
    radixDigit 10 c = some (digitValue c) := by
  have hb := isDigit_bounds c h
  unfold radixDigit digitValue
  simp only [h, if_true]
  rw [if_pos (by omega)]

theorem parseInt_digits (s : List Char) (hne : s ≠ []) (hd : ∀ c ∈ s, c.isDigit = true) :
    parseInt s = some (digitsValue s : Int) := by
  obtain ⟨c, rest, rfl⟩ := List.exists_cons_of_ne_nil hne
  have hc : c.isDigit = true := hd c (List.mem_cons_self _ _)
  have hcb := isDigit_bounds c hc
  have htrim : trimStart (c :: rest) = c :: rest := by
    unfold trimStart
    rw [List.dropWhile_cons, isDigit_not_whiteSpace c hc]
    rfl
  have htake : (c :: rest).takeWhile (fun c => (radixDigit 10 c).isSome) = c :: rest := by
    rw [List.takeWhile_eq_self_iff]
    intro x hx
    rw [radixDigit_ten x (hd x hx)]
    rfl
  have hfold : ∀ (l : List Char) (acc : Nat), (∀ x ∈ l, x.isDigit = true) →
      l.foldl (fun acc c => acc * 10 + (radixDigit 10 c).getD 0) acc =
        l.foldl (fun acc c => acc * 10 + digitValue c) acc := by
    intro l
    induction l with
    | nil => intro acc _; rfl
    | cons x xs ih =>
      intro acc hx
      rw [List.foldl_cons, List.foldl_cons, radixDigit_ten x (hx x (List.mem_cons_self _ _))]
      exact ih _ (fun y hy => hx y (List.mem_cons_of_mem _ hy))
  have hplus : c ≠ '+' := by
    intro h; rw [h] at hcb; revert hcb; decide
  have hminus : c ≠ '-' := by
    intro h; rw [h] at hcb; revert hcb; decide
  unfold parseInt
  simp only [htrim]
  split
  · rename_i heq; injection heq with h1 _; exact absurd h1 hplus
  · rename_i heq; injection heq with h1 _; exact absurd h1 hminus
  · split
    · rename_i u heq
      injection heq with _ h2
      have : ('x' : Char).isDigit = true := hd 'x' (by rw [h2]; simp)
      exact absurd this (by decide)
    · rename_i u heq
      injection heq with _ h2
      have : ('X' : Char).isDigit = true := hd 'X' (by rw [h2]; simp)
      exact absurd this (by decide)
    · simp only [htake, List.isEmpty_cons, Bool.false_eq_true, if_false]
      rw [hfold _ _ hd]
      rfl

theorem parseInt_natToString (n : Nat) : parseInt (natToString n) = some (n : Int) := by
  have h := natToString_spec n
  rw [parseInt_digits _ h.2.2 h.1, h.2.1]

theorem renderItems_getElem? (length : Nat) : ∀ (l : List HistoryItem) (index k : Nat)
    (item : HistoryItem), l[k]? = some item →
    (renderItems length index l)[k]? =
      some (.item item.expression item.result (natToString (length - 1 - (index + k)))) := by
  intro l
  induction l with
  | nil => intro index k item h; simp at h
  | cons x xs ih =>
    intro index k item h
    cases k with
    | zero =>
      simp only [List.getElem?_cons_zero, Option.some.injEq] at h
      subst h
      simp [renderItems]
    | succ k =>
      simp only [List.getElem?_cons_succ] at h
      have := ih (index + 1) k item h
      simp only [renderItems, List.getElem?_cons_succ]
      rw [this]
      congr 3
      omega

theorem historyMarkup_getElem? (h : List HistoryItem) (k : Nat) (hk : k < h.length) :
    ∃ item, h[h.length - 1 - k]? = some item ∧
      (historyMarkup h)[k]? =
        some (.item item.expression item.result (natToString (h.length - 1 - k))) := by
  have hlt : h.length - 1 - k < h.length := by omega
  refine ⟨h[h.length - 1 - k], List.getElem?_eq_getElem hlt, ?_⟩
  have hrev : h.reverse[k]? = some h[h.length - 1 - k] := by
    rw [List.getElem?_reverse hk, List.getElem?_eq_getElem hlt]
  unfold historyMarkup
  rw [if_neg (by omega)]
  have := renderItems_getElem? h.length h.reverse 0 k _ hrev
  rw [Nat.zero_add] at this
  exact this

/-! ## Replacements without a match, and the reference host -/

theorem isPrefixOf_cons_ne (n c : Char) (ns cs : List Char) (h : c ≠ n) :
    (n :: ns).isPrefixOf (c :: cs) = false := by
  rw [List.isPrefixOf]
  have : (n == c) = false := beq_false_of_ne (Ne.symm h)
  rw [this]
  rfl

theorem replaceWordGo_no_head (n : Char) (ns replacement : JSString) :
    ∀ (text : JSString) (before : Option Char), (∀ c ∈ text, c ≠ n) →
      replaceWordGo (n :: ns) replacement 0 before text = text := by
  intro text
  induction text with
  | nil => intro before _; rfl
  | cons c cs ih =>
    intro before h
    have hc : c ≠ n := h c (List.mem_cons_self _ _)
    have hm : wordMatchesAt (n :: ns) before (c :: cs) = false := by
      unfold wordMatchesAt
      rw [isPrefixOf_cons_ne n c ns cs hc]
      rfl
    rw [replaceWordGo, if_neg (by rw [hm]; exact Bool.false_ne_true),
      ih (some c) (fun x hx => h x (List.mem_cons_of_mem _ hx))]

theorem replaceWord_no_head (H : Host) (n : Char) (ns : JSString) (value : JSNumber)
    (text : JSString) (hplain : isPlainName (n :: ns) = true) (h : ∀ c ∈ text, c ≠ n) :
    replaceWord H (n :: ns) value text = .ok text := by
  unfold replaceWord
  rw [if_pos hplain, replaceWordGo_no_head n ns _ text none h]

theorem replaceCall_no_head (f : Char) (fs : JSString) :
    ∀ (text : JSString), (∀ c ∈ text, c ≠ f) → replaceCall (f :: fs) text = text := by
  intro text
  unfold replaceCall
  induction text with
  | nil => intro _; rfl
  | cons c cs ih =>
    intro h
    have hc : c ≠ f := h c (List.mem_cons_self _ _)
    have hm : callMatchLength (f :: fs) (c :: cs) = none := by
      unfold callMatchLength
      rw [isPrefixOf_cons_ne f c fs cs hc]
      rfl
    rw [replaceCallGo, hm]
    simp only []
    rw [ih (fun x hx => h x (List.mem_cons_of_mem _ hx))]

theorem replaceCaret_append (s t : JSString) :
    replaceCaret (s ++ t) = replaceCaret s ++ replaceCaret t := by
  unfold replaceCaret
  exact List.flatMap_append _ _ _

theorem replaceCaret_no_caret (s : JSString) (h : ∀ c ∈ s, c ≠ '^') : replaceCaret s = s := by
  induction s with
  | nil => rfl
  | cons c cs ih =>
    have hc : c ≠ '^' := h c (List.mem_cons_self _ _)
    have := ih (fun x hx => h x (List.mem_cons_of_mem _ hx))
    unfold replaceCaret at this ⊢
    rw [List.flatMap_cons, this, if_neg hc]
    rfl

theorem constructor_tables (H : Host) (page : Page) (stored : List HistoryItem) :
    (Calculator.constructor H page stored).constants = [("pi".toList, mathPI), ("e".toList, mathE)] ∧
    (Calculator.constructor H page stored).userVariables = [] := ⟨rfl, rfl⟩

theorem processExpression_congr (H : Host) (c c' : Calculator) (expression : JSString)
    (h1 : c.constants = c'.constants) (h2 : c.userVariables = c'.userVariables) :
    processExpression H c expression = processExpression H c' expression := by
  unfold processExpression
  rw [h1, h2]

theorem evaluateExpression_congr (H : Host) (c c' : Calculator) (expression : JSString)
    (h1 : c.constants = c'.constants) (h2 : c.userVariables = c'.userVariables) :
    evaluateExpression H c expression = evaluateExpression H c' expression := by
  unfold evaluateExpression
  rw [processExpression_congr H c c' expression h1 h2]

theorem conforms_refHost : Conforms refHost := by
  refine ⟨?_, ?_, ?_, ?_, ?_⟩
  · intro t s h
    unfold Ref.toLowerCase at h
    split at h
    · injection h
    · cases h
  · intro x s h; show (Ref.numberToString x).getD [] = s; rw [h]; rfl
  · intro x s h; show (Ref.toFixed4 x).getD [] = s; rw [h]; rfl
  · intro body v h
    show refRunFunction body = _
    unfold refRunFunction
    rw [h]
  · intro body h
    refine ⟨"Unexpected token".toList, ?_⟩
    show refRunFunction body = _
    unfold refRunFunction
    rw [h]

theorem Conforms.lower {H : Host} (h : Conforms H) (t s : JSString)
    (ht : Ref.toLowerCase t = some s) : H.toLowerCase t = s := h.1 t s ht

theorem Conforms.run_value {H : Host} (h : Conforms H) (body : JSString) (v : JSValue)
    (hb : Ref.run body = some (.value v)) : H.runFunction body = .ok v := h.2.2.2.1 body v hb

theorem Conforms.run_syntaxError {H : Host} (h : Conforms H) (body : JSString)
    (hb : Ref.run body = some .syntaxError) :
    ∃ msg, H.runFunction body = .error ⟨"SyntaxError".toList, some msg⟩ := h.2.2.2.2 body hb

theorem evaluateExpression_eq (H : Host) (c : Calculator) (expression processed : JSString)
    (v : JSValue) (hproc : processExpression H c expression = .ok processed)
    (hrun : H.runFunction (functionBody processed) = .ok v) :
    (∀ e, globalIsFinite H v = .error e → evaluateExpression H c expression = .error e) ∧
    (globalIsFinite H v = .ok false →
      evaluateExpression H c expression = .error divisionError) ∧
    (globalIsFinite H v = .ok true → evaluateExpression H c expression = .ok v) := by
  refine ⟨?_, ?_, ?_⟩
  · intro e hf
    unfold evaluateExpression
    rw [hproc]
    simp only [hrun, hf]
  · intro hf
    unfold evaluateExpression
    rw [hproc]
    simp only [hrun, hf]
  · intro hf
    unfold evaluateExpression
    rw [hproc]
    simp only [hrun, hf]


theorem mem_of_isPrefixOf (name : List Char) : ∀ (s : List Char), name.isPrefixOf s = true →
    ∀ c ∈ name, c ∈ s := by
  induction name with
  | nil => intro s _ c hc; cases hc
  | cons n ns ih =>
    intro s h c hc
    cases s with
    | nil => simp [List.isPrefixOf] at h
    | cons x xs =>
      rw [List.isPrefixOf, Bool.and_eq_true] at h
      have hx : n = x := by simpa using h.1
      rcases List.mem_cons.1 hc with e | e
      · rw [e, hx]; exact List.mem_cons_self _ _
      · exact List.mem_cons_of_mem _ (ih xs h.2 c e)

/-- A name that holds a character absent from the text is never matched: the
text is left as it is.  In particular a name with an upper-case letter is never
replaced in a lower-cased expression. -/
theorem replaceWordGo_absent_char (name replacement : JSString) (u : Char) (hu : u ∈ name) :
    ∀ (text : JSString) (before : Option Char), u ∉ text →
      replaceWordGo name replacement 0 before text = text := by
  intro text
  induction text with
  | nil => intro before _; rfl
  | cons c cs ih =>
    intro before h
    have hm : wordMatchesAt name before (c :: cs) = false := by
      unfold wordMatchesAt
      cases hp : name.isPrefixOf (c :: cs) with
      | false => rfl
      | true => exact absurd (mem_of_isPrefixOf name _ hp u hu) h
    rw [replaceWordGo, if_neg (by rw [hm]; exact Bool.false_ne_true),
      ih (some c) (fun hx => h (List.mem_cons_of_mem _ hx))]

theorem toLowerCaseAscii_no_upper (s : JSString) (u : Char)
    (hu : 65 ≤ u.toNat ∧ u.toNat ≤ 90) : u ∉ toLowerCaseAscii s := by
  unfold toLowerCaseAscii
  intro h
  obtain ⟨c, _, hc⟩ := List.mem_map.1 h
  unfold toLowerChar at hc
  split at hc
  · rename_i hcu
    have : u.toNat = c.toNat + 32 := by
      rw [← hc]
      have hvalid : (c.toNat + 32).isValidChar := by
        left
        omega
      unfold Char.ofNat
      rw [dif_pos hvalid]
      simp [Char.toNat, Char.ofNatAux, UInt32.toNat]
    omega
  · rename_i hcu
    rw [hc] at hcu
    exact hcu hu

/-! ## The reference lexer on numeric literals -/

namespace Ref

theorem startChar_digit (d : Char) (h : d.isDigit = true) :
    startChar d = some ([], .int [d]) := by
  have hb := isDigit_bounds d h
  have h1 : d ≠ ' ' := by intro e; rw [e] at hb; revert hb; decide
  have h2 : d ≠ '\t' := by intro e; rw [e] at hb; revert hb; decide
  unfold startChar
  rw [if_neg (by rintro (e | e); exact h1 e; exact h2 e), if_pos h]

theorem lexGo_int_digits : ∀ (ds acc rest : List Char), (∀ c ∈ ds, c.isDigit = true) →
    lexGo (.int acc) (ds ++ rest) = lexGo (.int (acc ++ ds)) rest := by
  intro ds
  induction ds with
  | nil => intro acc rest _; simp
  | cons d ds ih =>
    intro acc rest h
    have hd : d.isDigit = true := h d (List.mem_cons_self _ _)
    have hstep : lexStep (.int acc) d = some ([], .int (acc ++ [d])) := by
      unfold lexStep
      simp only [hd, if_true]
    rw [List.cons_append, lexGo, hstep]
    simp only []
    rw [ih (acc ++ [d]) rest (fun x hx => h x (List.mem_cons_of_mem _ hx))]
    rw [List.append_assoc, List.singleton_append]
    cases lexGo (.int (acc ++ d :: ds)) rest <;> rfl

theorem lexGo_frac_digits : ∀ (fs ip acc rest : List Char), (∀ c ∈ fs, c.isDigit = true) →
    lexGo (.frac ip acc) (fs ++ rest) = lexGo (.frac ip (acc ++ fs)) rest := by
  intro fs
  induction fs with
  | nil => intro ip acc rest _; simp
  | cons d fs ih =>
    intro ip acc rest h
    have hd : d.isDigit = true := h d (List.mem_cons_self _ _)
    have hstep : lexStep (.frac ip acc) d = some ([], .frac ip (acc ++ [d])) := by
      unfold lexStep
      simp only [hd, if_true]
    rw [List.cons_append, lexGo, hstep]
    simp only []
    rw [ih ip (acc ++ [d]) rest (fun x hx => h x (List.mem_cons_of_mem _ hx))]
    rw [List.append_assoc, List.singleton_append]
    cases lexGo (.frac ip (acc ++ d :: fs)) rest <;> rfl

end Ref

/-- Shape of a numeric literal: integer digits and fraction digits. -/
theorem isDecimalLiteral_shape (a : JSString) (h : isDecimalLiteral a = true) :
    ∃ (d : Char) (ip' fp : List Char),
      d.isDigit = true ∧ (∀ c ∈ ip', c.isDigit = true) ∧ (∀ c ∈ fp, c.isDigit = true) ∧
      ¬ ((d :: ip').length > 1 ∧ (d :: ip').head? = some '0') ∧
      (a = d :: ip' ∨ (fp ≠ [] ∧ a = d :: ip' ++ '.' :: fp)) := by
  unfold isDecimalLiteral at h
  simp only [Bool.and_eq_true, Bool.not_eq_true', Bool.and_eq_false_iff] at h
  obtain ⟨⟨h1, h2⟩, h3⟩ := h
  have hsplit := List.takeWhile_append_dropWhile Char.isDigit a
  have hall : ∀ c ∈ a.takeWhile Char.isDigit, c.isDigit = true :=
    fun c hc => List.mem_takeWhile_imp hc
  cases hip : a.takeWhile Char.isDigit with
  | nil => rw [hip] at h1; simp at h1
  | cons d ip' =>
    rw [hip] at hall h2 hsplit
    have hd := hall d (List.mem_cons_self _ _)
    have hip' : ∀ c ∈ ip', c.isDigit = true := fun c hc => hall c (List.mem_cons_of_mem _ hc)
    have hlead : ¬ ((d :: ip').length > 1 ∧ (d :: ip').head? = some '0') := by
      rintro ⟨hl, hh⟩
      rcases h2 with h2 | h2
      · exact absurd hl (of_decide_eq_false h2)
      · rw [hh] at h2; exact absurd h2 (by decide)
    cases hrest : a.dropWhile Char.isDigit with
    | nil =>
      rw [hrest] at hsplit
      exact ⟨d, ip', [], hd, hip', (by intro c hc; cases hc), hlead,
        Or.inl (by rw [← hsplit]; simp)⟩
    | cons c fp =>
      rw [hrest] at h3 hsplit
      by_cases hc : c = '.'
      · subst hc
        simp only [Bool.and_eq_true, Bool.not_eq_true', List.all_eq_true] at h3
        refine ⟨d, ip', fp, hd, hip', h3.2, hlead, Or.inr ⟨?_, ?_⟩⟩
        · intro hnil; rw [hnil] at h3; simp at h3
        · rw [← hsplit]
      · exfalso
        split at h3
        · rename_i heq; cases heq
        · rename_i heq; injection heq with h1 _; exact hc h1
        · exact absurd h3 (by decide)

namespace Ref

theorem lexGo_cons (st : LexState) (c : Char) (cs : List Char) :
    lexGo st (c :: cs) =
      (lexStep st c).bind (fun p => (lexGo p.2 cs).map (fun r => p.1 ++ r)) := by
  rw [lexGo]
  cases lexStep st c with
  | none => rfl
  | some p =>
    obtain ⟨ts, st'⟩ := p
    simp only [Option.bind]
    cases lexGo st' cs <;> rfl

theorem lexGo_literal_end (ds fs : List Char) (c : Char) (rest : List Char)
    (tsc : List Token) (stc : LexState)
    (hlead : ¬ (ds.length > 1 ∧ ds.head? = some '0'))
    (hc1 : c.isDigit = false) (hc2 : c ≠ '.') (hc3 : isIdentChar c = false)
    (hc4 : startChar c = some (tsc, stc)) (hne : ds ≠ []) :
    lexGo (.int ds) (c :: rest) = (lexGo stc rest).map (fun r => .num ds [] :: (tsc ++ r)) ∧
    lexGo (.frac ds fs) (c :: rest) =
      (lexGo stc rest).map (fun r => .num ds fs :: (tsc ++ r)) := by
  constructor
  · have hstep : lexStep (.int ds) c = some (.num ds [] :: tsc, stc) := by
      unfold lexStep
      simp only [hc1, Bool.false_eq_true, if_false, if_neg hc2, hc3]
      simp only [closeThenStart, closeState, if_neg hlead, hc4, List.singleton_append]
    rw [lexGo_cons, hstep]
    rfl
  · have hstep : lexStep (.frac ds fs) c = some (.num ds fs :: tsc, stc) := by
      unfold lexStep
      have : ¬ (c = '.' ∨ isIdentChar c = true) := by
        rintro (h | h)
        · exact hc2 h
        · rw [hc3] at h; exact absurd h (by decide)
      simp only [hc1, Bool.false_eq_true, if_false, if_neg this]
      have hn : ¬ ((ds.isEmpty = true ∧ fs.isEmpty = true) ∨ (ds.length > 1 ∧ ds.head? = some '0')) := by
        rintro (h | h)
        · exact hne (List.isEmpty_iff.1 h.1)
        · exact hlead h
      simp only [closeThenStart, closeState, if_neg hn, hc4, List.singleton_append]
    rw [lexGo_cons, hstep]
    rfl

/-- The lexer reads a numeric literal, after its first digit, as one token. -/
theorem lexGo_literal (a : JSString) (h : isDecimalLiteral a = true) :
    ∃ (d : Char) (a' ip fp : List Char), a = d :: a' ∧ d.isDigit = true ∧
      ∀ (c : Char) (rest : List Char) (tsc : List Token) (stc : LexState),
        c.isDigit = false → c ≠ '.' → isIdentChar c = false → startChar c = some (tsc, stc) →
        lexGo (.int [d]) (a' ++ c :: rest) =
          (lexGo stc rest).map (fun r => .num ip fp :: (tsc ++ r)) := by
  obtain ⟨d, ip', fp, hd, hip, hfp, hlead, hshape⟩ := isDecimalLiteral_shape a h
  rcases hshape with ha | ⟨_, ha⟩
  · refine ⟨d, ip', d :: ip', [], ha, hd, ?_⟩
    intro c rest tsc stc hc1 hc2 hc3 hc4
    rw [lexGo_int_digits ip' [d] (c :: rest) hip]
    exact (lexGo_literal_end (d :: ip') [] c rest tsc stc hlead hc1 hc2 hc3 hc4
      (List.cons_ne_nil _ _)).1
  · refine ⟨d, ip' ++ '.' :: fp, d :: ip', fp, ha, hd, ?_⟩
    intro c rest tsc stc hc1 hc2 hc3 hc4
    have hstep : lexStep (.int (d :: ip')) '.' = some ([], .frac (d :: ip') []) := by
      unfold lexStep
      simp
    have e1 : (ip' ++ '.' :: fp) ++ c :: rest = ip' ++ ('.' :: (fp ++ c :: rest)) := by simp
    rw [e1, lexGo_int_digits ip' [d] _ hip, List.singleton_append, lexGo_cons, hstep]
    simp only [Option.bind, List.nil_append]
    rw [lexGo_frac_digits fp (d :: ip') [] (c :: rest) hfp, List.nil_append,
      (lexGo_literal_end (d :: ip') fp c rest tsc stc hlead hc1 hc2 hc3 hc4
        (List.cons_ne_nil _ _)).2]
    cases lexGo stc rest <;> rfl

/-- The tokens of `(-a**b)` for numeric literals `a` and `b`. -/
theorem lexGo_neg_pow (a b : JSString) (ha : isDecimalLiteral a = true)
    (hb : isDecimalLiteral b = true) :
    ∃ ai af bi bf, lexGo .idle ('(' :: '-' :: (a ++ '*' :: '*' :: (b ++ [')']))) =
      some [.lparen, .minus, .num ai af, .pow, .num bi bf, .rparen] := by
  obtain ⟨d, a', ai, af, rfl, hd, hla⟩ := lexGo_literal a ha
  obtain ⟨e, b', bi, bf, rfl, he, hlb⟩ := lexGo_literal b hb
  refine ⟨ai, af, bi, bf, ?_⟩
  have hdb := isDigit_bounds d hd
  have hd1 : d ≠ '-' := by intro h; rw [h] at hdb; revert hdb; decide
  have h1 : lexStep .idle '(' = some ([.lparen], .idle) := by decide
  have h2 : lexStep .idle '-' = some ([], .minus) := by decide
  have h3 : lexStep .minus d = some ([.minus], .int [d]) := by
    unfold lexStep
    simp only [if_neg hd1, closeThenStart, closeState, startChar_digit d hd, List.append_nil]
  have h4 : lexStep .star '*' = some ([.pow], .idle) := by decide
  have h5 : lexStep .idle e = some ([], .int [e]) := startChar_digit e he
  have hend : lexGo .idle (e :: (b' ++ [')'])) = some [.num bi bf, .rparen] := by
    rw [lexGo_cons, h5]
    simp only [Option.bind]
    rw [hlb ')' [] [.rparen] .idle (by decide) (by decide) (by decide) (by decide)]
    rfl
  have hmid : lexGo (.int [d]) (a' ++ '*' :: '*' :: (e :: (b' ++ [')']))) =
      some [.num ai af, .pow, .num bi bf, .rparen] := by
    rw [hla '*' _ [] .star (by decide) (by decide) (by decide) (by decide)]
    rw [lexGo_cons, h4]
    simp only [Option.bind]
    rw [hend]
    rfl
  rw [lexGo_cons, h1]
  simp only [Option.bind]
  rw [lexGo_cons, h2]
  simp only [Option.bind]
  rw [List.cons_append, lexGo_cons, h3]
  simp only [Option.bind]
  rw [List.cons_append, hmid]
  rfl

theorem run_neg_pow (a b : JSString) (ha : isDecimalLiteral a = true)
    (hb : isDecimalLiteral b = true) :
    run (functionBody ('-' :: (a ++ '*' :: '*' :: b))) = some .syntaxError := by
  obtain ⟨ai, af, bi, bf, hlex⟩ := lexGo_neg_pow a b ha hb
  have hbody : functionBody ('-' :: (a ++ '*' :: '*' :: b)) =
      bodyPrefix ++ ('(' :: '-' :: (a ++ '*' :: '*' :: (b ++ [')']))) := by
    simp [functionBody, bodyPrefix]
  unfold run
  rw [hbody, if_pos (List.isPrefixOf_iff_prefix.2 (List.prefix_append _ _)),
    List.drop_left, hlex]
  rfl

end Ref

/-! ## The text handed to the engine -/

theorem processExpression_new (H : Host) (page : Page) (stored : List HistoryItem)
    (text low : JSString) (hlow : H.toLowerCase (trim text) = low)
    (hp : ∀ x ∈ low, x ≠ 'p') (he : ∀ x ∈ low, x ≠ 'e') :
    processExpression H (Calculator.constructor H page stored) text =
      .ok (replaceCall "tan".toList (replaceCall "cos".toList (replaceCall "sin".toList
        (replaceCall "sqrt".toList (replaceCaret low))))) := by
  unfold processExpression
  rw [(constructor_tables H page stored).1, (constructor_tables H page stored).2, hlow]
  have hent : (JSObject.spread [("pi".toList, mathPI), ("e".toList, mathE)] []).entries =
      [("pi".toList, mathPI), ("e".toList, mathE)] := by decide
  rw [hent]
  simp only [replaceVariables]
  rw [show "pi".toList = 'p' :: ['i'] from rfl, replaceWord_no_head H 'p' ['i'] _ _ (by decide) hp]
  simp only []
  rw [show "e".toList = 'e' :: [] from rfl, replaceWord_no_head H 'e' [] _ _ (by decide) he]

theorem IsArithChar.facts (c : Char) (h : IsArithChar c) :
    c ≠ 'p' ∧ c ≠ 'e' ∧ c ≠ 's' ∧ c ≠ 'c' ∧ c ≠ 't' ∧ toLowerChar c = c ∧ c.toNat < 128 := by
  rcases h with h | h | h | h | h
  · have hb := isDigit_bounds c h
    refine ⟨?_, ?_, ?_, ?_, ?_, ?_, ?_⟩
    · intro e; rw [e] at hb; revert hb; decide
    · intro e; rw [e] at hb; revert hb; decide
    · intro e; rw [e] at hb; revert hb; decide
    · intro e; rw [e] at hb; revert hb; decide
    · intro e; rw [e] at hb; revert hb; decide
    · unfold toLowerChar
      rw [if_neg (by omega)]
    · omega
  all_goals (subst h; decide)

theorem isDecimalLiteral_chars (a : JSString) (h : isDecimalLiteral a = true) :
    (∀ c ∈ a, c.isDigit = true ∨ c = '.') ∧ ∃ l z, a = l ++ [z] ∧ z.isDigit = true := by
  obtain ⟨d, ip', fp, hd, hip, hfp, _, hshape⟩ := isDecimalLiteral_shape a h
  rcases hshape with ha | ⟨hne, ha⟩
  · subst ha
    constructor
    · intro c hc
      rcases List.mem_cons.1 hc with h | h
      · left; rw [h]; exact hd
      · left; exact hip c h
    · rcases List.eq_nil_or_concat (d :: ip') with h | ⟨l, z, h⟩
      · cases h
      · rw [List.concat_eq_append] at h
        refine ⟨l, z, h, ?_⟩
        have hz : z ∈ d :: ip' := by rw [h]; simp
        rcases List.mem_cons.1 hz with h | h
        · rw [h]; exact hd
        · exact hip z h
  · subst ha
    constructor
    · intro c hc
      simp only [List.cons_append, List.mem_cons, List.mem_append] at hc
      rcases hc with h | h | h | h
      · left; rw [h]; exact hd
      · left; exact hip c h
      · right; exact h
      · left; exact hfp c h
    · rcases List.eq_nil_or_concat fp with h | ⟨l, z, h⟩
      · exact absurd h hne
      · rw [List.concat_eq_append] at h
        refine ⟨d :: ip' ++ '.' :: l, z, by rw [h]; simp, ?_⟩
        exact hfp z (by rw [h]; simp)

theorem trim_of_ends (c z : Char) (mid : List Char) (hc : isWhiteSpace c = false)
    (hz : isWhiteSpace z = false) : trim (c :: (mid ++ [z])) = c :: (mid ++ [z]) := by
  unfold trim trimStart trimEnd
  rw [List.dropWhile_cons, hc]
  simp only [Bool.false_eq_true, if_false]
  rw [← List.cons_append, List.rdropWhile_concat, hz]
  rfl

theorem toLowerCaseAscii_of_fixed (s : JSString) (h : ∀ c ∈ s, toLowerChar c = c) :
    toLowerCaseAscii s = s := by
  unfold toLowerCaseAscii
  induction s with
  | nil => rfl
  | cons c cs ih =>
    rw [List.map_cons, h c (List.mem_cons_self _ _),
      ih (fun x hx => h x (List.mem_cons_of_mem _ hx))]

theorem Ref.toLowerCase_of_fixed (s : JSString) (h : ∀ c ∈ s, toLowerChar c = c)
    (hascii : ∀ c ∈ s, c.toNat < 128) : Ref.toLowerCase s = some s := by
  unfold Ref.toLowerCase
  rw [if_pos (by
    rw [List.all_eq_true]
    intro c hc
    exact decide_eq_true (hascii c hc)), toLowerCaseAscii_of_fixed s h]

/-- The text handed to the engine for `-a^b`. -/
theorem processExpression_neg_pow (H : Host) (hH : Conforms H) (page : Page)
    (stored : List HistoryItem) (a b : JSString) (ha : isDecimalLiteral a = true) (hb : isDecimalLiteral b = true) :
    processExpression H (Calculator.constructor H page stored) ("-".toList ++ a ++ "^".toList ++ b) =
      .ok ('-' :: (a ++ '*' :: '*' :: b)) := by
  obtain ⟨hac, _⟩ := isDecimalLiteral_chars a ha
  obtain ⟨hbc, bl, z, hbz, hz⟩ := isDecimalLiteral_chars b hb
  have hform : "-".toList ++ a ++ "^".toList ++ b = '-' :: ((a ++ '^' :: bl) ++ [z]) := by
    rw [hbz]; simp
  have hexpr : "-".toList ++ a ++ "^".toList ++ b = '-' :: (a ++ '^' :: b) := by simp
  have htrim : trim ("-".toList ++ a ++ "^".toList ++ b) = '-' :: (a ++ '^' :: b) := by
    rw [hform, trim_of_ends '-' z _ (by decide) (isDigit_not_whiteSpace z hz), ← hform, hexpr]
  have hchars : ∀ c ∈ '-' :: (a ++ '^' :: b), IsArithChar c := by
    intro c hc
    simp only [List.mem_cons, List.mem_append] at hc
    rcases hc with h | h | h | h
    · right; right; left; exact h
    · rcases hac c h with h | h
      · left; exact h
      · right; left; exact h
    · right; right; right; left; exact h
    · rcases hbc c h with h | h
      · left; exact h
      · right; left; exact h
  have hlow : H.toLowerCase (trim ("-".toList ++ a ++ "^".toList ++ b)) =
      '-' :: (a ++ '^' :: b) := by
    rw [htrim]
    exact hH.lower _ _ (Ref.toLowerCase_of_fixed _
      (fun c hc => (IsArithChar.facts c (hchars c hc)).2.2.2.2.2.1)
      (fun c hc => (IsArithChar.facts c (hchars c hc)).2.2.2.2.2.2))
  have hnocaret : ∀ (s : JSString), (∀ c ∈ s, c.isDigit = true ∨ c = '.') → ∀ c ∈ s, c ≠ '^' := by
    intro s hs c hc e
    rcases hs c hc with h | h
    · rw [e] at h; exact absurd h (by decide)
    · rw [e] at h; exact absurd h (by decide)
  have hcaret : replaceCaret ('-' :: (a ++ '^' :: b)) = '-' :: (a ++ '*' :: '*' :: b) := by
    rw [show '-' :: (a ++ '^' :: b) = ['-'] ++ (a ++ (['^'] ++ b)) from rfl]
    rw [replaceCaret_append, replaceCaret_append, replaceCaret_append,
      replaceCaret_no_caret a (hnocaret a hac), replaceCaret_no_caret b (hnocaret b hbc)]
    rfl
  have hchars2 : ∀ c ∈ '-' :: (a ++ '*' :: '*' :: b), IsArithChar c := by
    intro c hc
    simp only [List.mem_cons, List.mem_append] at hc
    rcases hc with h | h | h | h | h
    · right; right; left; exact h
    · rcases hac c h with h | h
      · left; exact h
      · right; left; exact h
    · right; right; right; right; exact h
    · right; right; right; right; exact h
    · rcases hbc c h with h | h
      · left; exact h
      · right; left; exact h
  rw [processExpression_new H page stored _ _ hlow
    (fun c hc => (IsArithChar.facts c (hchars c hc)).1)
    (fun c hc => (IsArithChar.facts c (hchars c hc)).2.1)]
  rw [hcaret]
  rw [show "sqrt".toList = 's' :: "qrt".toList from rfl,
    replaceCall_no_head 's' _ _ (fun c hc => (IsArithChar.facts c (hchars2 c hc)).2.2.1)]
  rw [show "sin".toList = 's' :: "in".toList from rfl,
    replaceCall_no_head 's' _ _ (fun c hc => (IsArithChar.facts c (hchars2 c hc)).2.2.1)]
  rw [show "cos".toList = 'c' :: "os".toList from rfl,
    replaceCall_no_head 'c' _ _ (fun c hc => (IsArithChar.facts c (hchars2 c hc)).2.2.2.1)]
  rw [show "tan".toList = 't' :: "an".toList from rfl,
    replaceCall_no_head 't' _ _ (fun c hc => (IsArithChar.facts c (hchars2 c hc)).2.2.2.2.1)]

/-! ## The paths of setVariable -/

theorem JSNumber.numEq_self (x : JSNumber) : x.numEq x = !x.isNaN := by
  cases x <;> simp [JSNumber.numEq, JSNumber.isNaN]

theorem JSObject.define_of_not_hasOwn (o : JSObject) (k : JSString) (v : JSNumber)
    (h : o.hasOwn k = false) : o.define k v = o ++ [(k, v)] := by
  induction o with
  | nil => rfl
  | cons p rest ih =>
    obtain ⟨k', v'⟩ := p
    unfold JSObject.hasOwn at h ih
    rw [List.lookup_cons] at h
    by_cases hk : k = k'
    · subst hk
      rw [beq_self_eq_true] at h
      simp at h
    · rw [beq_false_of_ne hk] at h
      unfold JSObject.define
      rw [if_neg (Ne.symm hk), ih h]
      rfl

theorem trim_ends (s : JSString) :
    (∀ c, (trim s).head? = some c → isWhiteSpace c = false) ∧
    (∀ c, (trim s).getLast? = some c → isWhiteSpace c = false) := by
  unfold trim trimEnd trimStart
  constructor
  · intro c hc
    obtain ⟨t, ht⟩ := List.rdropWhile_prefix isWhiteSpace (s.dropWhile isWhiteSpace)
    cases hr : List.rdropWhile isWhiteSpace (s.dropWhile isWhiteSpace) with
    | nil => rw [hr] at hc; cases hc
    | cons x xs =>
      rw [hr] at hc ht
      simp only [List.head?_cons, Option.some.injEq] at hc
      subst hc
      have hne : s.dropWhile isWhiteSpace ≠ [] := by rw [← ht]; simp
      have := List.head_dropWhile_not isWhiteSpace s hne
      have hh : (s.dropWhile isWhiteSpace).head hne = x := by
        simp only [← ht]
        rfl
      rw [hh] at this
      simpa using this
  · intro c hc
    cases hr : List.rdropWhile isWhiteSpace (s.dropWhile isWhiteSpace) with
    | nil => rw [hr] at hc; cases hc
    | cons x xs =>
      have hne : List.rdropWhile isWhiteSpace (s.dropWhile isWhiteSpace) ≠ [] := by
        rw [hr]; simp
      have := List.rdropWhile_last_not isWhiteSpace (s.dropWhile isWhiteSpace) hne
      rw [List.getLast?_eq_getLast _ hne] at hc
      injection hc with hc
      rw [hc] at this
      simpa using this

theorem passesGuards_iff (c : Calculator) (name value : JSString) :
    c.passesGuards name value = true ↔
      trim name ≠ [] ∧ (parseFloat value).isNaN = false ∧
      c.userVariables.hasOwn hasOwnPropertyKey = false ∧
      c.userVariables.hasOwn (trim name) = false ∧
      c.constants.hasOwn hasOwnPropertyKey = false ∧
      c.constants.hasOwn (trim name) = false ∧
      (stringToNumber (trim name)).isNaN = true := by
  unfold passesGuards
  rw [JSNumber.numEq_self]
  simp only [Bool.and_eq_true, Bool.not_eq_true', Bool.not_not, List.isEmpty_eq_false,
    ne_eq, and_assoc]

/-- The outcome of `setVariable` on each of its paths. -/
theorem setVariable_paths (H : Host) (c : Calculator) (name value : JSString) :
    (c.passesGuards name value = true →
      setVariable H c name value =
        ⟨{ updateVariablesDisplay H
            { { c with varErrorStyle := "none".toList } with
              userVariables := c.userVariables.assign (trim name) (parseFloat value) } with
            varNameInput := [], varValueInput := [] }, none⟩) ∧
    (trim name ≠ [] → (parseFloat value).isNaN = false →
      c.userVariables.hasOwn hasOwnPropertyKey = false →
      (c.userVariables.hasOwn (trim name) = true ∨
        (c.constants.hasOwn hasOwnPropertyKey = false ∧
          c.constants.hasOwn (trim name) = true)) →
      setVariable H c name value =
        ⟨showVarError { c with varErrorStyle := "none".toList }
          (reservedNameMessage (trim name)), none⟩) ∧
    (trim name ≠ [] → (parseFloat value).isNaN = false →
      c.userVariables.hasOwn hasOwnPropertyKey = false →
      c.userVariables.hasOwn (trim name) = false →
      c.constants.hasOwn hasOwnPropertyKey = false →
      c.constants.hasOwn (trim name) = false →
      (stringToNumber (trim name)).isNaN = false →
      setVariable H c name value =
        ⟨showVarError { c with varErrorStyle := "none".toList } numericNameMessage, none⟩) ∧
    (trim name ≠ [] → (parseFloat value).isNaN = false →
      c.userVariables.hasOwn hasOwnPropertyKey = true →
      setVariable H c name value =
        ⟨{ c with varErrorStyle := "none".toList },
          some (typeError "this.userVariables.hasOwnProperty is not a function".toList)⟩) := by
  refine ⟨?_, ?_, ?_, ?_⟩
  · intro hp
    obtain ⟨h1, h2, h3, h4, h5, h6, h7⟩ := (passesGuards_iff c name value).1 hp
    unfold setVariable
    simp only [if_neg h1, h2, Bool.false_eq_true, if_false, JSObject.callHasOwnProperty, h3, h4,
      h5, h6, JSNumber.numEq_self, h7, Bool.not_true]
  · intro h1 h2 h3 h4
    unfold setVariable
    rcases h4 with h4 | ⟨h5, h6⟩
    · simp only [if_neg h1, h2, Bool.false_eq_true, if_false, JSObject.callHasOwnProperty, h3, h4]
    · cases hu : c.userVariables.hasOwn (trim name) with
      | true =>
        simp only [if_neg h1, h2, Bool.false_eq_true, if_false, JSObject.callHasOwnProperty, h3, hu]
      | false =>
        simp only [if_neg h1, h2, Bool.false_eq_true, if_false, JSObject.callHasOwnProperty, h3, hu,
          h5, h6]
  · intro h1 h2 h3 h4 h5 h6 h7
    unfold setVariable
    simp only [if_neg h1, h2, Bool.false_eq_true, if_false, JSObject.callHasOwnProperty, h3, h4,
      h5, h6, JSNumber.numEq_self, h7, Bool.not_false, if_true]
  · intro h1 h2 h3
    unfold setVariable
    simp only [if_neg h1, h2, Bool.false_eq_true, if_false, JSObject.callHasOwnProperty, h3,
      if_true]
    rfl

/-! ## Sequences of setVariable and deleteVariable calls -/

theorem setVariable_variablesList (H : Host) (c : Calculator) (name value : JSString) :
    (setVariable H c name value).state.variablesList =
      if c.passesGuards name value then
        variablesMarkup H c.constants (c.userVariables.assign (trim name) (parseFloat value))
      else c.variablesList := by
  cases hp : c.passesGuards name value with
  | true =>
    rw [(setVariable_paths H c name value).1 hp]
    rfl
  | false =>
    simp only [Bool.false_eq_true, if_false]
    unfold setVariable
    simp only []
    split
    · rfl
    · split
      · rfl
      · split
        · rfl
        · rfl
        · split
          · rfl
          · rfl
          · split
            · rfl
            · rename_i h1 h2 _ he _ he2 h3
              exfalso
              have hu := callHasOwnProperty_ok _ _ _ _ he
              have hc := callHasOwnProperty_ok _ _ _ _ he2
              have : c.passesGuards name value = true := by
                unfold passesGuards
                simp only [Bool.and_eq_true, Bool.not_eq_true']
                refine ⟨⟨⟨⟨⟨⟨?_, ?_⟩, hu.1⟩, hu.2⟩, hc.1⟩, hc.2⟩, ?_⟩
                · simpa using h1
                · simpa using h2
                · simpa using h3
              rw [this] at hp
              cases hp

theorem applyOp_displayInSync (H : Host) (c : Calculator) (op : VarOp)
    (h : DisplayInSync H c) : DisplayInSync H (applyOp H c op) := by
  cases op with
  | set name value =>
    unfold DisplayInSync
    show (setVariable H c name value).state.variablesList =
      variablesMarkup H (setVariable H c name value).state.constants
        (setVariable H c name value).state.userVariables
    rw [setVariable_variablesList, (setVariable_tables H c name value).1,
      (setVariable_tables H c name value).2]
    split
    · rfl
    · exact h
  | delete name => rfl

theorem runOps_displayInSync (H : Host) (ops : List VarOp) (c : Calculator)
    (h : DisplayInSync H c) : DisplayInSync H (runOps H c ops) := by
  induction ops generalizing c with
  | nil => exact h
  | cons op rest ih => exact ih _ (applyOp_displayInSync H c op h)

theorem lookup_assign_of_passes (c : Calculator) (name value k : JSString)
    (hp : c.passesGuards name value = true) (hk : k ≠ protoKey) :
    (c.userVariables.assign (trim name) (parseFloat value)).lookup k =
      if k = trim name then some (parseFloat value) else c.userVariables.lookup k := by
  have h4 := passesGuards_userVariables c name value hp
  unfold JSObject.assign
  rw [h4]
  simp only [Bool.false_eq_true, if_false]
  split
  · rename_i hproto
    rw [if_neg (by rw [hproto]; exact hk)]
  · exact JSObject.lookup_define _ _ _ _

theorem runOps_lookup_eq_net (H : Host) (ops : List VarOp) :
    ∀ (c : Calculator) (m : JSString → Option JSNumber) (k : JSString), k ≠ protoKey →
      c.userVariables.lookup k = m k →
      (runOps H c ops).userVariables.lookup k = netVariables H c ops m k := by
  induction ops with
  | nil => intro c m k _ h; exact h
  | cons op rest ih =>
    intro c m k hk h
    cases op with
    | set name value =>
      show (runOps H (applyOp H c (.set name value)) rest).userVariables.lookup k = _
      rw [netVariables]
      apply ih _ _ k hk
      show (setVariable H c name value).state.userVariables.lookup k = _
      rw [(setVariable_tables H c name value).2]
      cases hp : c.passesGuards name value with
      | true =>
        simp only [if_true]
        rw [lookup_assign_of_passes c name value k hp hk, h]
      | false =>
        simp only [Bool.false_eq_true, if_false]
        exact h
    | delete name =>
      show (runOps H (applyOp H c (.delete name)) rest).userVariables.lookup k = _
      rw [netVariables]
      apply ih _ _ k hk
      show (c.userVariables.delete name).lookup k = _
      by_cases hkn : k = name
      · subst hkn
        rw [if_pos rfl]
        have := JSObject.hasOwn_delete_self c.userVariables k
        unfold JSObject.hasOwn at this
        cases hl : (c.userVariables.delete k).lookup k with
        | none => rfl
        | some v => rw [hl] at this; cases this
      · rw [if_neg hkn, JSObject.lookup_delete_ne _ _ _ hkn, h]

theorem sortStrings_spec (l : List JSString) :
    (sortStrings l).Sorted jsStringLE ∧ (sortStrings l).Perm l :=
  ⟨List.sorted_insertionSort jsStringLE l, List.perm_insertionSort jsStringLE l⟩

theorem JSObject.ownKeys_perm (o : JSObject) : o.ownKeys.Perm (o.map Prod.fst) := by
  unfold JSObject.ownKeys
  refine (List.Perm.append_right _ (List.perm_insertionSort _ _)).trans ?_
  exact List.filter_append_perm isArrayIndex (o.map Prod.fst)

theorem JSObject.mem_keys_iff (o : JSObject) (k : JSString) :
    k ∈ o.map Prod.fst ↔ o.hasOwn k = true := by
  unfold JSObject.hasOwn
  induction o with
  | nil => exact ⟨fun h => (by cases h), fun h => (by cases h)⟩
  | cons p rest ih =>
    obtain ⟨k', v'⟩ := p
    rw [List.map_cons, List.mem_cons, List.lookup_cons]
    by_cases hk : k = k'
    · subst hk
      rw [beq_self_eq_true]
      exact ⟨fun _ => rfl, fun _ => Or.inl rfl⟩
    · rw [beq_false_of_ne hk, ← ih]
      exact ⟨fun h => h.resolve_left hk, fun h => Or.inr h⟩

theorem JSObject.keys_delete (o : JSObject) (name : JSString) :
    (o.delete name).map Prod.fst = (o.map Prod.fst).filter (fun k => decide (k ≠ name)) := by
  unfold JSObject.delete
  rw [List.filter_map]
  rfl

theorem applyOp_keysDistinct (H : Host) (c : Calculator) (op : VarOp)
    (h : KeysDistinct c) : KeysDistinct (applyOp H c op) := by
  unfold KeysDistinct at h ⊢
  cases op with
  | set name value =>
    show ((setVariable H c name value).state.userVariables.map Prod.fst).Nodup
    rw [(setVariable_tables H c name value).2]
    split
    · rename_i hp
      have h4 := passesGuards_userVariables c name value hp
      unfold JSObject.assign
      rw [h4]
      simp only [Bool.false_eq_true, if_false]
      split
      · exact h
      · rw [JSObject.define_of_not_hasOwn _ _ _ h4, List.map_append]
        refine List.Nodup.append h (List.nodup_singleton _) ?_
        intro k hk1 hk2
        simp only [List.map_cons, List.map_nil, List.mem_singleton] at hk2
        rw [hk2, JSObject.mem_keys_iff, h4] at hk1
        cases hk1
    · exact h
  | delete name =>
    show ((c.userVariables.delete name).map Prod.fst).Nodup
    rw [JSObject.keys_delete]
    exact h.filter _

theorem runOps_keysDistinct (H : Host) (ops : List VarOp) (c : Calculator)
    (h : KeysDistinct c) : KeysDistinct (runOps H c ops) := by
  induction ops generalizing c with
  | nil => exact h
  | cons op rest ih => exact ih _ (applyOp_keysDistinct H c op h)

/-- The variables list after any sequence of `setVariable` and `deleteVariable`
calls on a new calculator: the two constants, then one row for each own
property of the user variables, in ascending order of the names, each name
once, with the stored value formatted; and for every name other than
`__proto__` the stored value is the one of the net set of definitions. -/
theorem variablesList_after_calls (H : Host) (page : Page) (stored : List HistoryItem)
    (ops : List VarOp) :
    (runOps H (Calculator.constructor H page stored) ops).variablesList =
      [.constant "pi".toList (H.toFixed4 mathPI), .constant "e".toList (H.toFixed4 mathE)] ++
        (sortStrings (runOps H (Calculator.constructor H page stored) ops).userVariables.ownKeys
          ).filterMap (fun name =>
            ((runOps H (Calculator.constructor H page stored) ops).userVariables.lookup name).map
              (fun value => VarMarkup.user name (H.toFixed4 value))) ∧
    (sortStrings (runOps H (Calculator.constructor H page stored) ops).userVariables.ownKeys
      ).Sorted jsStringLE ∧
    (sortStrings (runOps H (Calculator.constructor H page stored) ops).userVariables.ownKeys).Nodup ∧
    (∀ name, name ∈ sortStrings
        (runOps H (Calculator.constructor H page stored) ops).userVariables.ownKeys ↔
      ((runOps H (Calculator.constructor H page stored) ops).userVariables.lookup name).isSome = true) ∧
    (∀ name, name ≠ protoKey →
      (runOps H (Calculator.constructor H page stored) ops).userVariables.lookup name =
        netVariables H (Calculator.constructor H page stored) ops (fun _ => none) name) := by
  have hperm : (sortStrings (runOps H (Calculator.constructor H page stored) ops).userVariables.ownKeys
      ).Perm ((runOps H (Calculator.constructor H page stored) ops).userVariables.map Prod.fst) :=
    (sortStrings_spec _).2.trans (JSObject.ownKeys_perm _)
  refine ⟨?_, (sortStrings_spec _).1, ?_, ?_, ?_⟩
  · have hsync := runOps_displayInSync H ops (Calculator.constructor H page stored) rfl
    unfold DisplayInSync at hsync
    rw [hsync, runOps_constants, (constructor_tables H page stored).1]
    unfold variablesMarkup
    rw [if_neg (by
      rintro ⟨_, h2⟩
      revert h2
      decide)]
    have hent : JSObject.entries [("pi".toList, mathPI), ("e".toList, mathE)] =
        [("pi".toList, mathPI), ("e".toList, mathE)] := by decide
    rw [hent]
    rfl
  · exact hperm.nodup_iff.2 (runOps_keysDistinct H ops _ List.nodup_nil)
  · intro name
    rw [hperm.mem_iff, JSObject.mem_keys_iff]
    rfl
  · intro name hname
    exact runOps_lookup_eq_net H ops _ _ name hname rfl

/-! ## Names that Number reads as numbers -/

theorem takeWhile_dropWhile_digits (ds rest : List Char) (hds : ∀ c ∈ ds, c.isDigit = true)
    (hrest : ∀ c, rest.head? = some c → c.isDigit = false) :
    (ds ++ rest).takeWhile Char.isDigit = ds ∧ (ds ++ rest).dropWhile Char.isDigit = rest := by
  induction ds with
  | nil =>
    cases rest with
    | nil => exact ⟨rfl, rfl⟩
    | cons c cs =>
      have hc := hrest c rfl
      rw [List.nil_append, List.takeWhile_cons, List.dropWhile_cons, hc]
      exact ⟨rfl, rfl⟩
  | cons d ds ih =>
    have hd := hds d (List.mem_cons_self _ _)
    obtain ⟨h1, h2⟩ := ih (fun c hc => hds c (List.mem_cons_of_mem _ hc))
    rw [List.cons_append, List.takeWhile_cons, List.dropWhile_cons, hd]
    simp only [if_true]
    exact ⟨by rw [h1], h2⟩

theorem scanExponent_nil : scanExponent [] = (0, []) := rfl

theorem mkNumber_isNaN (neg : Bool) (m : Nat) (e : Int) : (mkNumber neg m e).isNaN = false := by
  unfold mkNumber
  split
  · cases neg <;> rfl
  · rfl

/-- A numeric literal is read as a number, to its end. -/
theorem scanSigned_decimalLiteral (t : JSString) (h : isDecimalLiteral t = true) :
    ∃ m e, scanSigned t = some (mkNumber false m e, []) := by
  obtain ⟨d, ip', fp, hd, hip, hfp, _, hshape⟩ := isDecimalLiteral_shape t h
  have hdb := isDigit_bounds d hd
  have hplus : d ≠ '+' := by intro e; rw [e] at hdb; revert hdb; decide
  have hminus : d ≠ '-' := by intro e; rw [e] at hdb; revert hdb; decide
  have hI : d ≠ 'I' := by intro e; rw [e] at hdb; revert hdb; decide
  have hall : ∀ c ∈ d :: ip', c.isDigit = true := by
    intro c hc
    rcases List.mem_cons.1 hc with h | h
    · rw [h]; exact hd
    · exact hip c h
  have hsigned : ∀ r, scanSigned (d :: r) = scanUnsigned false (d :: r) := by
    intro r
    unfold scanSigned
    split
    · rename_i heq; injection heq with h1 _; exact absurd h1 hplus
    · rename_i heq; injection heq with h1 _; exact absurd h1 hminus
    · rfl
  have hinf : ∀ r, infinityText.isPrefixOf (d :: r) = false := by
    intro r
    exact isPrefixOf_cons_ne 'I' d _ r hI
  rcases hshape with ht | ⟨hne, ht⟩
  · subst ht
    obtain ⟨h1, h2⟩ := takeWhile_dropWhile_digits (d :: ip') [] hall (by intro c hc; cases hc)
    rw [List.append_nil] at h1 h2
    refine ⟨digitsValue (d :: ip'), 0, ?_⟩
    rw [hsigned]
    unfold scanUnsigned
    rw [hinf]
    simp only [Bool.false_eq_true, if_false]
    unfold scanDecimal
    simp only [h1, h2, List.isEmpty_cons, Bool.false_eq_true, if_false, scanExponent_nil]
  · subst ht
    obtain ⟨h1, h2⟩ := takeWhile_dropWhile_digits (d :: ip') ('.' :: fp) hall
      (by intro c hc; simp only [List.head?_cons, Option.some.injEq] at hc; rw [← hc]; decide)
    obtain ⟨h3, h4⟩ := takeWhile_dropWhile_digits fp [] hfp (by intro c hc; cases hc)
    rw [List.append_nil] at h3 h4
    refine ⟨digitsValue (d :: ip' ++ fp), 0 - (fp.length : Int), ?_⟩
    rw [List.cons_append, hsigned]
    unfold scanUnsigned
    rw [hinf]
    simp only [Bool.false_eq_true, if_false]
    unfold scanDecimal
    rw [← List.cons_append]
    simp only [h1, h2, h3, h4, List.isEmpty_cons, Bool.false_eq_true, false_and, if_false,
      scanExponent_nil]

theorem trim_eq_self (t : JSString)
    (hh : ∀ c, t.head? = some c → isWhiteSpace c = false)
    (hl : ∀ c, t.getLast? = some c → isWhiteSpace c = false) : trim t = t := by
  unfold trim trimStart trimEnd
  have h1 : t.dropWhile isWhiteSpace = t := by
    cases t with
    | nil => rfl
    | cons c cs => rw [List.dropWhile_cons, hh c rfl]; rfl
  rw [h1, List.rdropWhile_eq_self_iff]
  intro hne
  have := hl (t.getLast hne) (List.getLast?_eq_getLast _ hne)
  rw [this]
  exact Bool.false_ne_true

theorem trim_trim (s : JSString) : trim (trim s) = trim s :=
  trim_eq_self _ (trim_ends s).1 (trim_ends s).2

/-- `Number` reads a numeric literal as a number. -/
theorem stringToNumber_decimalLiteral (name : JSString)
    (h : isDecimalLiteral (trim name) = true) : (stringToNumber (trim name)).isNaN = false := by
  obtain ⟨m, e, hscan⟩ := scanSigned_decimalLiteral (trim name) h
  obtain ⟨d, ip', fp, hd, hip, hfp, _, hshape⟩ := isDecimalLiteral_shape (trim name) h
  unfold stringToNumber
  rw [trim_trim]
  have hdigit_or_point : ∀ p r, trim name = '0' :: p :: r → p.isDigit = true ∨ p = '.' := by
    intro p r heq
    have := (isDecimalLiteral_chars (trim name) h).1 p (by rw [heq]; simp)
    exact this
  split
  · rename_i heq
    rw [heq] at hscan
    cases hscan
  · rename_i p r heq
    have hp := hdigit_or_point p r heq
    have hnx : ∀ ch : Char, ch.isDigit = false → ch ≠ '.' → p ≠ ch := by
      intro ch h1 h2 e
      rcases hp with hp | hp
      · rw [e, h1] at hp; cases hp
      · exact h2 (e ▸ hp)
    have n1 : ¬ (p = 'x' ∨ p = 'X') := by
      rintro (e | e)
      · exact hnx 'x' (by decide) (by decide) e
      · exact hnx 'X' (by decide) (by decide) e
    have n2 : ¬ (p = 'o' ∨ p = 'O') := by
      rintro (e | e)
      · exact hnx 'o' (by decide) (by decide) e
      · exact hnx 'O' (by decide) (by decide) e
    have n3 : ¬ (p = 'b' ∨ p = 'B') := by
      rintro (e | e)
      · exact hnx 'b' (by decide) (by decide) e
      · exact hnx 'B' (by decide) (by decide) e
    rw [if_neg n1, if_neg n2, if_neg n3, ← heq, hscan]
    exact mkNumber_isNaN _ _ _
  · rw [hscan]
    exact mkNumber_isNaN _ _ _

theorem applyOp_namesValid (H : Host) (c : Calculator) (op : VarOp)
    (h : NamesValid c) : NamesValid (applyOp H c op) := by
  intro k hk
  cases op with
  | set name value =>
    change (setVariable H c name value).state.userVariables.hasOwn k = true at hk
    rw [(setVariable_tables H c name value).2] at hk
    split at hk
    · rename_i hp
      obtain ⟨h1, _, _, _, _, _, h7⟩ := (passesGuards_iff c name value).1 hp
      rcases JSObject.hasOwn_assign _ _ _ _ hk with e | e
      · rw [e]; exact ⟨h1, h7⟩
      · exact h k e
    · exact h k hk
  | delete name =>
    exact h k (JSObject.hasOwn_of_hasOwn_delete _ _ _ hk)

theorem runOps_namesValid (H : Host) (ops : List VarOp) (c : Calculator)
    (h : NamesValid c) : NamesValid (runOps H c ops) := by
  induction ops generalizing c with
  | nil => exact h
  | cons op rest ih => exact ih _ (applyOp_namesValid H c op h)

theorem constants_hasOwn (k : JSString)
    (h : JSObject.hasOwn [("pi".toList, mathPI), ("e".toList, mathE)] k = true) :
    k = "pi".toList ∨ k = "e".toList := by
  unfold JSObject.hasOwn at h
  rw [List.lookup_cons] at h
  by_cases h1 : k = "pi".toList
  · exact Or.inl h1
  · rw [beq_false_of_ne h1, List.lookup_cons] at h
    by_cases h2 : k = "e".toList
    · exact Or.inr h2
    · rw [beq_false_of_ne h2] at h
      cases h

/-- Rejection of a defined name where the guard works: in every state reached from a new calculator in which
no user variable is named `hasOwnProperty`, `setVariable` with a value text that
parses and a name that, trimmed, is a constant or a user variable shows the
reserved-name error, throws nothing and changes nothing else. -/
theorem setVariable_rejects_defined_name (H : Host) (page : Page) (stored : List HistoryItem)
    (ops : List VarOp) (name value : JSString)
    (hintact : (runOps H (Calculator.constructor H page stored) ops).userVariables.hasOwn
      hasOwnPropertyKey = false)
    (hvalue : (parseFloat value).isNaN = false)
    (hdefined : (runOps H (Calculator.constructor H page stored) ops).constants.hasOwn (trim name) = true ∨
      (runOps H (Calculator.constructor H page stored) ops).userVariables.hasOwn (trim name) = true) :
    setVariable H (runOps H (Calculator.constructor H page stored) ops) name value =
      ⟨showVarError { runOps H (Calculator.constructor H page stored) ops with
          varErrorStyle := "none".toList } (reservedNameMessage (trim name)), none⟩ := by
  have hconst : (runOps H (Calculator.constructor H page stored) ops).constants =
      [("pi".toList, mathPI), ("e".toList, mathE)] := by
    rw [runOps_constants]; rfl
  have hvalid := runOps_namesValid H ops (Calculator.constructor H page stored)
    (by intro k hk; cases hk)
  have hne : trim name ≠ [] := by
    rcases hdefined with h | h
    · rw [hconst] at h
      rcases constants_hasOwn _ h with e | e <;> (rw [e]; decide)
    · exact (hvalid _ h).1
  refine (setVariable_paths H _ name value).2.1 hne hvalue hintact ?_
  rcases hdefined with h | h
  · exact Or.inr ⟨by rw [hconst]; decide, h⟩
  · exact Or.inl h

/-- Rejection of a numeric name where the guard works: in every state reached from a new calculator in which
no user variable is named `hasOwnProperty`, `setVariable` with a value text that
parses and a name that, trimmed, is not empty and is read as a number by
`Number` (every numeric literal is, by `stringToNumber_decimalLiteral`) shows the
numbers-cannot-be-names error, throws nothing and changes nothing else. -/
theorem setVariable_rejects_numeric_name (H : Host) (page : Page) (stored : List HistoryItem)
    (ops : List VarOp) (name value : JSString)
    (hintact : (runOps H (Calculator.constructor H page stored) ops).userVariables.hasOwn
      hasOwnPropertyKey = false)
    (hvalue : (parseFloat value).isNaN = false)
    (hne : trim name ≠ [])
    (hnum : (stringToNumber (trim name)).isNaN = false) :
    setVariable H (runOps H (Calculator.constructor H page stored) ops) name value =
      ⟨showVarError { runOps H (Calculator.constructor H page stored) ops with
          varErrorStyle := "none".toList } numericNameMessage, none⟩ := by
  have hconst : (runOps H (Calculator.constructor H page stored) ops).constants =
      [("pi".toList, mathPI), ("e".toList, mathE)] := by
    rw [runOps_constants]; rfl
  have hvalid := runOps_namesValid H ops (Calculator.constructor H page stored)
    (by intro k hk; cases hk)
  have hu : (runOps H (Calculator.constructor H page stored) ops).userVariables.hasOwn (trim name)
      = false := by
    cases hh : (runOps H (Calculator.constructor H page stored) ops).userVariables.hasOwn (trim name) with
    | false => rfl
    | true =>
      have := (hvalid _ hh).2
      rw [hnum] at this
      cases this
  have hc : (runOps H (Calculator.constructor H page stored) ops).constants.hasOwn (trim name)
      = false := by
    cases hh : (runOps H (Calculator.constructor H page stored) ops).constants.hasOwn (trim name) with
    | false => rfl
    | true =>
      rw [hconst] at hh
      rcases constants_hasOwn _ hh with e | e
      · rw [e] at hnum; revert hnum; decide
      · rw [e] at hnum; revert hnum; decide
  exact (setVariable_paths H _ name value).2.2.1 hne hvalue hintact hu
    (by rw [hconst]; decide) hc hnum

/-! ## The claims -/

/-- C1, as stated, fails: for the expression `true` a conforming host evaluates
the processed text to the boolean `true`, and `evaluateExpression` returns that
value, which is not a finite Number. -/
theorem evaluateExpression_returns_non_number :
    Conforms refHost ∧
    processExpression refHost (Calculator.constructor refHost blankPage []) "true".toList =
      .ok "true".toList ∧
    refHost.runFunction (functionBody "true".toList) = .ok (.boolean true) ∧
    evaluateExpression refHost (Calculator.constructor refHost blankPage []) "true".toList =
      .ok (.boolean true) ∧
    ¬ ∃ x : JSNumber, JSValue.boolean true = .number x ∧ x.isFinite = true :=
  ⟨conforms_refHost, by decide, by decide, by decide, by
    rintro ⟨x, hx, _⟩; cases hx⟩

/-- C1 (amended): let `v` be the value the host returns for the processed
expression.  `evaluateExpression` returns `v` exactly when the global
`isFinite(v)` holds, that is when `v` converts to a finite Number; for a Number
`v` this means that `v` is finite.  When `v` is an infinite or NaN Number,
`evaluateExpression` throws the division-by-zero error instead of returning
`v`; `calculate` on that expression (which it evaluates when it is not blank)
then shows the division-by-zero message, throws nothing, and leaves the history
as it was. -/
theorem evaluateExpression_returns_iff_isFinite (H : Host) (c : Calculator)
    (expression processed : JSString) (v : JSValue)
    (hproc : processExpression H c expression = .ok processed)
    (hrun : H.runFunction (functionBody processed) = .ok v) :
    (evaluateExpression H c expression = .ok v ↔ globalIsFinite H v = .ok true) ∧
    (∀ w, evaluateExpression H c expression = .ok w → w = v) ∧
    (∀ x, v = .number x →
      (evaluateExpression H c expression = .ok v ↔ x.isFinite = true)) ∧
    (∀ x, v = .number x → x.isFinite = false →
      evaluateExpression H c expression = .error divisionError ∧
      ∀ now, c.expressionInput = expression → trim expression ≠ [] →
        (calculate H now c).state.outputDisplay =
          "ERROR: Division by zero or resulting in an infinity.".toList ∧
        (calculate H now c).state.history = c.history ∧
        (calculate H now c).thrown = none) := by
  obtain ⟨hE, hF, hT⟩ := evaluateExpression_eq H c expression processed v hproc hrun
  have hdiv : (Except.error divisionError : Except JSError JSValue) ≠ .ok v := by
    intro h; cases h
  have hiff : evaluateExpression H c expression = .ok v ↔ globalIsFinite H v = .ok true := by
    cases hf : globalIsFinite H v with
    | error e => rw [hE e hf]; constructor <;> intro h <;> cases h
    | ok b =>
      cases b
      · rw [hF hf]; constructor <;> intro h <;> cases h
      · rw [hT hf]; exact ⟨fun _ => rfl, fun _ => rfl⟩
  refine ⟨hiff, ?_, ?_, ?_⟩
  · intro w hw
    cases hf : globalIsFinite H v with
    | error e => rw [hE e hf] at hw; cases hw
    | ok b =>
      cases b
      · rw [hF hf] at hw; cases hw
      · rw [hT hf] at hw; injection hw with hw; exact hw.symm
  · intro x hx
    subst hx
    rw [hiff]
    have : globalIsFinite H (.number x) = .ok x.isFinite := rfl
    rw [this]
    cases x.isFinite
    · constructor <;> intro h <;> cases h
    · exact ⟨fun _ => rfl, fun _ => rfl⟩
  · intro x hx hfin
    subst hx
    have hgf : globalIsFinite H (.number x) = .ok false := by
      show Except.ok x.isFinite = _
      rw [hfin]
    have heval : evaluateExpression H c expression = .error divisionError := hF hgf
    refine ⟨heval, ?_⟩
    intro now hexpr hblank
    have hmsg : errorMessageFor
        "Division by zero or invalid operation resulting in Infinity.".toList =
        "ERROR: Division by zero or resulting in an infinity.".toList := by decide
    have hcalc : calculate H now c =
        ⟨{ c with outputDisplay := "ERROR: Division by zero or resulting in an infinity.".toList },
          none⟩ := by
      unfold calculate
      simp only [hexpr, if_neg hblank, heval, divisionError, hmsg]
    rw [hcalc]
    exact ⟨rfl, rfl, rfl⟩

/-- An instance: on the reference host `5/0` evaluates to an infinity, so
`evaluateExpression` throws and `calculate` leaves the history empty. -/
theorem evaluateExpression_returns_iff_isFinite_witness :
    evaluateExpression refHost (Calculator.constructor refHost blankPage []) "5/0".toList =
      .error divisionError ∧
    (calculate refHost 7
        { Calculator.constructor refHost blankPage [] with expressionInput := "5/0".toList }
      ).state.history = [] :=
  ⟨((evaluateExpression_returns_iff_isFinite refHost (Calculator.constructor refHost blankPage [])
      "5/0".toList "5/0".toList (.number .posInf) (by decide) (by decide)).2.2.2
        .posInf rfl rfl).1,
   (((evaluateExpression_returns_iff_isFinite refHost
      { Calculator.constructor refHost blankPage [] with expressionInput := "5/0".toList }
      "5/0".toList "5/0".toList (.number .posInf) (by decide) (by decide)).2.2.2
        .posInf rfl rfl).2 7 rfl (by decide)).2.1⟩

theorem setVariable_hasOwnProperty_tables (H : Host) (page : Page) (stored : List HistoryItem) :
    (setVariable H (Calculator.constructor H page stored)
        "hasOwnProperty".toList "1".toList).state.userVariables =
      [("hasOwnProperty".toList, .fin 1 0)] ∧
    (setVariable H (Calculator.constructor H page stored)
        "hasOwnProperty".toList "1".toList).thrown = none := by
  have hp : (Calculator.constructor H page stored).passesGuards "hasOwnProperty".toList "1".toList
      = true := by
    unfold passesGuards
    rw [(constructor_tables H page stored).1, (constructor_tables H page stored).2]
    decide
  constructor
  · rw [(setVariable_tables H _ _ _).2, hp, if_pos rfl, (constructor_tables H page stored).2]
    decide
  · rw [(setVariable_paths H _ _ _).1 hp]

/-- C2 at the failing input, for every host and page: after
`setVariable("hasOwnProperty", "1")` on a new calculator the user variables hold
a Number under the name `hasOwnProperty`; `setVariable("pi", "1.0")` then throws
a TypeError at the guard of line 167.  The state it leaves is the one before the
call with the error display hidden (line 157): no reserved-name error is shown,
and the two objects are unchanged. -/
theorem setVariable_pi_after_hasOwnProperty (H : Host) (page : Page)
    (stored : List HistoryItem) :
    (setVariable H (Calculator.constructor H page stored)
        "hasOwnProperty".toList "1".toList).state.userVariables =
      [("hasOwnProperty".toList, .fin 1 0)] ∧
    (setVariable H (Calculator.constructor H page stored)
        "hasOwnProperty".toList "1".toList).thrown = none ∧
    setVariable H
        (setVariable H (Calculator.constructor H page stored) "hasOwnProperty".toList "1".toList).state
        "pi".toList "1.0".toList =
      ⟨{ (setVariable H (Calculator.constructor H page stored)
            "hasOwnProperty".toList "1".toList).state with varErrorStyle := "none".toList },
        some (typeError "this.userVariables.hasOwnProperty is not a function".toList)⟩ ∧
    (setVariable H
        (setVariable H (Calculator.constructor H page stored) "hasOwnProperty".toList "1".toList).state
        "pi".toList "1.0".toList).state.varErrorStyle ≠ "block".toList := by
  obtain ⟨hu, ht⟩ := setVariable_hasOwnProperty_tables H page stored
  have hthrow := (setVariable_paths H
    (setVariable H (Calculator.constructor H page stored) "hasOwnProperty".toList "1".toList).state
    "pi".toList "1.0".toList).2.2.2 (by decide) (by decide) (by rw [hu]; decide)
  refine ⟨hu, ht, hthrow, ?_⟩
  rw [hthrow]
  show "none".toList ≠ "block".toList
  decide

/-- C3 at the failing input, for every host and page: with a user variable named
`hasOwnProperty`, `setVariable("2", "5.0")` throws a TypeError at the guard of
line 167 before the numeric-name check of line 171 is reached.  The state it
leaves is the one before the call with the error display hidden: the
numbers-cannot-be-names error is not shown. -/
theorem setVariable_numeric_after_hasOwnProperty (H : Host) (page : Page)
    (stored : List HistoryItem) :
    (stringToNumber (trim "2".toList)).isNaN = false ∧
    setVariable H
        (setVariable H (Calculator.constructor H page stored) "hasOwnProperty".toList "1".toList).state
        "2".toList "5.0".toList =
      ⟨{ (setVariable H (Calculator.constructor H page stored)
            "hasOwnProperty".toList "1".toList).state with varErrorStyle := "none".toList },
        some (typeError "this.userVariables.hasOwnProperty is not a function".toList)⟩ ∧
    (setVariable H
        (setVariable H (Calculator.constructor H page stored) "hasOwnProperty".toList "1".toList).state
        "2".toList "5.0".toList).state.varErrorStyle ≠ "block".toList := by
  obtain ⟨hu, _⟩ := setVariable_hasOwnProperty_tables H page stored
  have hthrow := (setVariable_paths H
    (setVariable H (Calculator.constructor H page stored) "hasOwnProperty".toList "1".toList).state
    "2".toList "5.0".toList).2.2.2 (by decide) (by decide) (by rw [hu]; decide)
  refine ⟨by decide, hthrow, ?_⟩
  rw [hthrow]
  show "none".toList ≠ "block".toList
  decide

theorem processExpression_upperX (H : Host) (c : Calculator) (text low : JSString)
    (hc : c.constants = [("pi".toList, mathPI), ("e".toList, mathE)])
    (hu : c.userVariables = [("X".toList, .fin 3 0)])
    (hlow : H.toLowerCase (trim text) = low)
    (hp : ∀ x ∈ low, x ≠ 'p') (he : ∀ x ∈ low, x ≠ 'e') (hx : ∀ x ∈ low, x ≠ 'X') :
    processExpression H c text =
      .ok (replaceCall "tan".toList (replaceCall "cos".toList (replaceCall "sin".toList
        (replaceCall "sqrt".toList (replaceCaret low))))) := by
  unfold processExpression
  rw [hc, hu, hlow]
  have hent : (JSObject.spread [("pi".toList, mathPI), ("e".toList, mathE)]
      [("X".toList, .fin 3 0)]).entries =
      [("pi".toList, mathPI), ("e".toList, mathE), ("X".toList, .fin 3 0)] := by decide
  rw [hent]
  simp only [replaceVariables]
  rw [show "pi".toList = 'p' :: ['i'] from rfl, replaceWord_no_head H 'p' ['i'] _ _ (by decide) hp]
  simp only []
  rw [show "e".toList = 'e' :: [] from rfl, replaceWord_no_head H 'e' [] _ _ (by decide) he]
  simp only []
  rw [show "X".toList = 'X' :: [] from rfl, replaceWord_no_head H 'X' [] _ _ (by decide) hx]

theorem setVariable_upperX_tables (H : Host) :
    (setVariable H (Calculator.constructor H blankPage []) "X".toList "3".toList).state.constants =
      [("pi".toList, mathPI), ("e".toList, mathE)] ∧
    (setVariable H (Calculator.constructor H blankPage []) "X".toList "3".toList).state.userVariables =
      [("X".toList, .fin 3 0)] := by
  obtain ⟨h1, h2⟩ := setVariable_tables H (Calculator.constructor H blankPage []) "X".toList "3".toList
  have hp : (Calculator.constructor H blankPage []).passesGuards "X".toList "3".toList = true := by
    unfold passesGuards
    rw [(constructor_tables H blankPage []).1, (constructor_tables H blankPage []).2]
    decide
  rw [hp, if_pos rfl, (constructor_tables H blankPage []).2] at h2
  rw [(constructor_tables H blankPage []).1] at h1
  exact ⟨h1, by rw [h2]; decide⟩

/-- C4 at the failing input: on every host that conforms to the reference,
`setVariable("X", "3")` stores the variable under the name `X`, and for the
expressions `x*2` and `X*2` the text handed to the engine is `x*2`, with the
name still in it; with the variable defined as `x` both expressions become
`3*2`, which evaluates to 6. -/
theorem uppercase_variable_is_not_replaced :
    Conforms refHost ∧
    (setVariable refHost (Calculator.constructor refHost blankPage []) "X".toList "3".toList
      ).state.userVariables = [("X".toList, .fin 3 0)] ∧
    processExpression refHost
      (setVariable refHost (Calculator.constructor refHost blankPage []) "X".toList "3".toList).state
      "x*2".toList = .ok "x*2".toList ∧
    processExpression refHost
      (setVariable refHost (Calculator.constructor refHost blankPage []) "X".toList "3".toList).state
      "X*2".toList = .ok "x*2".toList ∧
    (∀ H : Host, Conforms H →
      (setVariable H (Calculator.constructor H blankPage []) "X".toList "3".toList).state.userVariables =
        [("X".toList, .fin 3 0)] ∧
      (setVariable H (Calculator.constructor H blankPage []) "X".toList "3".toList).thrown = none ∧
      processExpression H
        (setVariable H (Calculator.constructor H blankPage []) "X".toList "3".toList).state
        "x*2".toList = .ok "x*2".toList ∧
      processExpression H
        (setVariable H (Calculator.constructor H blankPage []) "X".toList "3".toList).state
        "X*2".toList = .ok "x*2".toList) ∧
    processExpression refHost
      (setVariable refHost (Calculator.constructor refHost blankPage []) "x".toList "3".toList).state
      "X*2".toList = .ok "3*2".toList ∧
    evaluateExpression refHost
      (setVariable refHost (Calculator.constructor refHost blankPage []) "x".toList "3".toList).state
      "X*2".toList = .ok (.number (.fin 6 0)) ∧
    evaluateExpression refHost
      (setVariable refHost (Calculator.constructor refHost blankPage []) "x".toList "3".toList).state
      "x*2".toList = .ok (.number (.fin 6 0)) := by
  refine ⟨conforms_refHost, by decide, by decide, by decide, ?_, by decide, by decide, by decide⟩
  intro H hH
  obtain ⟨hc, hu⟩ := setVariable_upperX_tables H
  refine ⟨hu, ?_, ?_, ?_⟩
  · have hp : (Calculator.constructor H blankPage []).passesGuards "X".toList "3".toList = true := by
      unfold passesGuards
      rw [(constructor_tables H blankPage []).1, (constructor_tables H blankPage []).2]
      decide
    rw [(setVariable_paths H _ _ _).1 hp]
  · rw [processExpression_upperX H _ "x*2".toList "x*2".toList hc hu
      (hH.lower _ _ (by decide)) (by decide) (by decide) (by decide)]
    decide
  · rw [processExpression_upperX H _ "X*2".toList "x*2".toList hc hu
      (hH.lower _ _ (by decide)) (by decide) (by decide) (by decide)]
    decide

/-- C8 at the failing input, for every host and page: `setVariable("__proto__",
"5")` on a new calculator passes every guard, shows no error, throws nothing
and clears the two inputs, yet the assignment of line 177 creates no property:
the user variables stay empty and the variables list shows the two constants
only. -/
theorem setVariable_proto_not_listed (H : Host) (page : Page) (stored : List HistoryItem) :
    (Calculator.constructor H page stored).passesGuards "__proto__".toList "5".toList = true ∧
    (setVariable H (Calculator.constructor H page stored) "__proto__".toList "5".toList).thrown = none ∧
    (setVariable H (Calculator.constructor H page stored) "__proto__".toList "5".toList
      ).state.varErrorStyle = "none".toList ∧
    (setVariable H (Calculator.constructor H page stored) "__proto__".toList "5".toList
      ).state.varNameInput = [] ∧
    (setVariable H (Calculator.constructor H page stored) "__proto__".toList "5".toList
      ).state.varValueInput = [] ∧
    (setVariable H (Calculator.constructor H page stored) "__proto__".toList "5".toList
      ).state.userVariables = [] ∧
    (setVariable H (Calculator.constructor H page stored) "__proto__".toList "5".toList
      ).state.variablesList =
      [.constant "pi".toList (H.toFixed4 mathPI), .constant "e".toList (H.toFixed4 mathE)] := by
  have hp : (Calculator.constructor H page stored).passesGuards "__proto__".toList "5".toList
      = true := by
    unfold passesGuards
    rw [(constructor_tables H page stored).1, (constructor_tables H page stored).2]
    decide
  have hout := (setVariable_paths H (Calculator.constructor H page stored) "__proto__".toList
    "5".toList).1 hp
  refine ⟨hp, ?_, ?_, ?_, ?_, ?_, ?_⟩
  · rw [hout]
  · rw [hout]; rfl
  · rw [hout]
  · rw [hout]
  · rw [(setVariable_tables H _ _ _).2, hp, if_pos rfl, (constructor_tables H page stored).2]
    decide
  · rw [setVariable_variablesList, hp, if_pos rfl, (constructor_tables H page stored).1,
      (constructor_tables H page stored).2]
    have hassign : JSObject.assign [] (trim "__proto__".toList) (parseFloat "5".toList) = [] := by
      decide
    rw [hassign]
    unfold variablesMarkup
    rw [if_neg (by rintro ⟨_, h2⟩; revert h2; decide)]
    have hent : JSObject.entries [("pi".toList, mathPI), ("e".toList, mathE)] =
        [("pi".toList, mathPI), ("e".toList, mathE)] := by decide
    rw [hent]
    rfl

/-- C5, as stated, fails: for `-2^2` the text handed to the engine is `-2**2`,
which the grammar of the language rejects (a unary minus cannot be the left
operand of `**`), so on a conforming host `evaluateExpression("-2^2")` throws a
SyntaxError and does not return -4. -/
theorem evaluateExpression_neg_two_squared_throws :
    Conforms refHost ∧
    processExpression refHost (Calculator.constructor refHost blankPage []) "-2^2".toList =
      .ok "-2**2".toList ∧
    Ref.run (functionBody "-2**2".toList) = some .syntaxError ∧
    evaluateExpression refHost (Calculator.constructor refHost blankPage []) "-2^2".toList =
      .error ⟨"SyntaxError".toList, some "Unexpected token".toList⟩ ∧
    evaluateExpression refHost (Calculator.constructor refHost blankPage []) "-2^2".toList ≠
      .ok (.number (.fin (-4) 0)) :=
  ⟨conforms_refHost, by decide, by decide, by decide, by decide⟩

/-- C5 (amended): on a host that conforms to the reference, in a newly constructed
calculator, for all numeric literals `a` and `b` (decimal digits without a
superfluous leading zero, optionally a point and digits) the expression `-a^b`
is handed to the engine as `-a**b` and `evaluateExpression` throws the
SyntaxError of the engine: a unary minus in front of the left operand of `**`
is not accepted.  With parentheses the expression is accepted:
`evaluateExpression("-(2^2)")` returns -4 and `evaluateExpression("(-2)^2")`
returns 4. -/
theorem unary_minus_before_power_is_rejected (H : Host) (hH : Conforms H) (page : Page)
    (stored : List HistoryItem) (a b : JSString)
    (ha : isDecimalLiteral a = true) (hb : isDecimalLiteral b = true) :
    processExpression H (Calculator.constructor H page stored) ("-".toList ++ a ++ "^".toList ++ b) =
      .ok ("-".toList ++ a ++ "**".toList ++ b) ∧
    (∃ msg, evaluateExpression H (Calculator.constructor H page stored)
        ("-".toList ++ a ++ "^".toList ++ b) = .error ⟨"SyntaxError".toList, some msg⟩) ∧
    evaluateExpression H (Calculator.constructor H page stored) "-(2^2)".toList =
      .ok (.number (.fin (-4) 0)) ∧
    evaluateExpression H (Calculator.constructor H page stored) "(-2)^2".toList =
      .ok (.number (.fin 4 0)) := by
  have hproc := processExpression_neg_pow H hH page stored a b ha hb
  refine ⟨?_, ?_, ?_, ?_⟩
  · rw [hproc]; simp
  · obtain ⟨msg, hmsg⟩ := hH.run_syntaxError _ (Ref.run_neg_pow a b ha hb)
    refine ⟨msg, ?_⟩
    unfold evaluateExpression
    rw [hproc]
    simp only [hmsg]
  · have hp : processExpression H (Calculator.constructor H page stored) "-(2^2)".toList =
        .ok "-(2**2)".toList := by
      rw [processExpression_new H page stored _ "-(2^2)".toList (hH.lower _ _ (by decide))
        (by decide) (by decide)]
      decide
    have hr : H.runFunction (functionBody "-(2**2)".toList) = .ok (.number (.fin (-4) 0)) :=
      hH.run_value _ _ (by decide)
    exact (evaluateExpression_eq H _ _ _ _ hp hr).2.2 rfl
  · have hp : processExpression H (Calculator.constructor H page stored) "(-2)^2".toList =
        .ok "(-2)**2".toList := by
      rw [processExpression_new H page stored _ "(-2)^2".toList (hH.lower _ _ (by decide))
        (by decide) (by decide)]
      decide
    have hr : H.runFunction (functionBody "(-2)**2".toList) = .ok (.number (.fin 4 0)) :=
      hH.run_value _ _ (by decide)
    exact (evaluateExpression_eq H _ _ _ _ hp hr).2.2 rfl

/-- An instance: the reference host conforms, and `-2.5^10` is rejected. -/
theorem unary_minus_before_power_is_rejected_witness :
    Conforms refHost ∧ isDecimalLiteral "2.5".toList = true ∧ isDecimalLiteral "10".toList = true ∧
    ∃ msg, evaluateExpression refHost (Calculator.constructor refHost blankPage [])
        ("-".toList ++ "2.5".toList ++ "^".toList ++ "10".toList) =
      .error ⟨"SyntaxError".toList, some msg⟩ :=
  ⟨conforms_refHost, by decide, by decide,
    (unary_minus_before_power_is_rejected refHost conforms_refHost blankPage []
      "2.5".toList "10".toList (by decide) (by decide)).2.1⟩

/-- C6, as stated, fails: `setVariable("a+b", "1")` on a new calculator shows no
error and stores the variable under the name `a+b`, which holds the operator
character `+`. -/
theorem setVariable_accepts_operator_character :
    '+' ∈ "a+b".toList ∧
    (setVariable refHost (Calculator.constructor refHost blankPage []) "a+b".toList "1".toList
      ).state.userVariables = [("a+b".toList, .fin 1 0)] ∧
    (setVariable refHost (Calculator.constructor refHost blankPage []) "a+b".toList "1".toList
      ).state.varErrorStyle = "none".toList ∧
    (setVariable refHost (Calculator.constructor refHost blankPage []) "a+b".toList "1".toList
      ).thrown = none := by
  decide

/-- C6 (amended): `setVariable` does not inspect the characters of a name.  When a
call changes the user variables, the name stored is the trimmed input: it is not
empty, has no white space at either end, is not read as a number by `Number`,
was an own property of neither object, the value text parsed to a number, and
the variable was added after the existing ones with the parsed value.  And a
call is accepted on these conditions alone: a name other than `__proto__` whose
trimmed form is not empty, not numeric and not yet an own property of either
object is stored with a value that parses (no user variable being named
`hasOwnProperty`), whatever characters it holds. -/
theorem setVariable_accepts_by_guards_only (H : Host) (c : Calculator) (name value : JSString) :
    ((setVariable H c name value).state.userVariables ≠ c.userVariables →
      trim name ≠ [] ∧
      (∀ ch, (trim name).head? = some ch → isWhiteSpace ch = false) ∧
      (∀ ch, (trim name).getLast? = some ch → isWhiteSpace ch = false) ∧
      (stringToNumber (trim name)).isNaN = true ∧
      (parseFloat value).isNaN = false ∧
      c.userVariables.hasOwn (trim name) = false ∧
      c.constants.hasOwn (trim name) = false ∧
      (setVariable H c name value).state.userVariables =
        c.userVariables ++ [(trim name, parseFloat value)]) ∧
    (trim name ≠ [] → (parseFloat value).isNaN = false →
      c.userVariables.hasOwn hasOwnPropertyKey = false →
      c.userVariables.hasOwn (trim name) = false →
      c.constants.hasOwn hasOwnPropertyKey = false →
      c.constants.hasOwn (trim name) = false →
      (stringToNumber (trim name)).isNaN = true →
      trim name ≠ protoKey →
      (setVariable H c name value).state.userVariables =
        c.userVariables ++ [(trim name, parseFloat value)] ∧
      (setVariable H c name value).state.varErrorStyle = "none".toList ∧
      (setVariable H c name value).thrown = none) := by
  have htab := (setVariable_tables H c name value).2
  constructor
  · intro hne
    cases hp : c.passesGuards name value with
    | false =>
      rw [hp] at htab
      exact absurd htab hne
    | true =>
      rw [hp, if_pos rfl] at htab
      obtain ⟨h1, h2, _, h4, _, h6, h7⟩ := (passesGuards_iff c name value).1 hp
      have hassign : c.userVariables.assign (trim name) (parseFloat value) =
          c.userVariables ++ [(trim name, parseFloat value)] := by
        unfold JSObject.assign
        rw [h4]
        simp only [Bool.false_eq_true, if_false]
        split
        · rename_i hproto
          exfalso
          apply hne
          rw [htab]
          unfold JSObject.assign
          rw [h4]
          simp only [Bool.false_eq_true, if_false, if_pos hproto]
        · exact JSObject.define_of_not_hasOwn _ _ _ h4
      refine ⟨h1, (trim_ends name).1, (trim_ends name).2, h7, h2, h4, h6, ?_⟩
      rw [htab, hassign]
  · intro h1 h2 h3 h4 h5 h6 h7 h8
    have hp : c.passesGuards name value = true :=
      (passesGuards_iff c name value).2 ⟨h1, h2, h3, h4, h5, h6, h7⟩
    rw [hp, if_pos rfl] at htab
    refine ⟨?_, ?_, ?_⟩
    · rw [htab]
      unfold JSObject.assign
      rw [h4]
      simp only [Bool.false_eq_true, if_false, if_neg h8]
      exact JSObject.define_of_not_hasOwn _ _ _ h4
    · rw [(setVariable_paths H c name value).1 hp]
      rfl
    · rw [(setVariable_paths H c name value).1 hp]

/-- An instance: the name ` (x y) ` is stored, trimmed, with its parentheses and
its inner white space. -/
theorem setVariable_accepts_by_guards_only_witness :
    (trim " (x y) ".toList ≠ [] ∧
      (stringToNumber (trim " (x y) ".toList)).isNaN = true ∧
      (setVariable refHost (Calculator.constructor refHost blankPage []) " (x y) ".toList "2".toList
        ).state.userVariables = [] ++ [("(x y)".toList, .fin 2 0)]) ∧
    (setVariable refHost (Calculator.constructor refHost blankPage []) " (x y) ".toList "2".toList
      ).thrown = none :=
  ⟨⟨((setVariable_accepts_by_guards_only refHost (Calculator.constructor refHost blankPage [])
        " (x y) ".toList "2".toList).1 (by decide)).1,
     ((setVariable_accepts_by_guards_only refHost (Calculator.constructor refHost blankPage [])
        " (x y) ".toList "2".toList).1 (by decide)).2.2.2.1,
     ((setVariable_accepts_by_guards_only refHost (Calculator.constructor refHost blankPage [])
        " (x y) ".toList "2".toList).1 (by decide)).2.2.2.2.2.2.2⟩,
   ((setVariable_accepts_by_guards_only refHost (Calculator.constructor refHost blankPage [])
      " (x y) ".toList "2".toList).2
    (by decide) (by decide) (by decide) (by decide) (by decide) (by decide) (by decide)
    (by decide)).2.2⟩

/-- C7: in every state reached from the constructed calculator by a sequence of
`setVariable` and `deleteVariable` calls, the constants are exactly `pi` and `e`
with the values given by the constructor, and no name is an own property of both
the constants and the user variables. -/
theorem layers_disjoint_constants_fixed (H : Host) (page : Page) (stored : List HistoryItem)
    (ops : List VarOp) :
    (runOps H (Calculator.constructor H page stored) ops).constants =
      [("pi".toList, mathPI), ("e".toList, mathE)] ∧
    ∀ k, ¬ ((runOps H (Calculator.constructor H page stored) ops).constants.hasOwn k = true ∧
      (runOps H (Calculator.constructor H page stored) ops).userVariables.hasOwn k = true) := by
  refine ⟨?_, ?_⟩
  · rw [runOps_constants]; rfl
  · intro k hk
    have hinit : LayersDisjoint (Calculator.constructor H page stored) := by
      intro k _; rfl
    have := runOps_layersDisjoint H ops _ hinit k hk.1
    rw [this] at hk
    exact absurd hk.2 (by decide)

/-- C9: `deleteVariable(name)` never changes the constants, leaves every user
variable other than `name` as it was, and leaves `name` absent; when `name` is
not a user variable the user variables are unchanged as well; and deleting a
second time changes nothing more. -/
theorem deleteVariable_removes_only_name (H : Host) (c : Calculator) (name : JSString) :
    (deleteVariable H c name).constants = c.constants ∧
    (∀ k, k ≠ name →
      (deleteVariable H c name).userVariables.lookup k = c.userVariables.lookup k) ∧
    (deleteVariable H c name).userVariables.hasOwn name = false ∧
    (c.userVariables.hasOwn name = false →
      (deleteVariable H c name).userVariables = c.userVariables) ∧
    deleteVariable H (deleteVariable H c name) name = deleteVariable H c name := by
  refine ⟨rfl, ?_, ?_, ?_, ?_⟩
  · intro k hk
    exact JSObject.lookup_delete_ne _ _ _ hk
  · exact JSObject.hasOwn_delete_self _ _
  · intro h
    exact JSObject.delete_of_not_hasOwn _ _ h
  · have h2 : (c.userVariables.delete name).delete name = c.userVariables.delete name :=
      JSObject.delete_of_not_hasOwn _ _ (JSObject.hasOwn_delete_self _ _)
    simp only [deleteVariable, updateVariablesDisplay, h2]

/-- An instance: deleting a name that is not defined leaves the variable `x`. -/
theorem deleteVariable_removes_only_name_witness :
    ((setVariable refHost (Calculator.constructor refHost blankPage []) "x".toList "3".toList).state
        ).userVariables.hasOwn "nonexistent".toList = false ∧
    (deleteVariable refHost
        (setVariable refHost (Calculator.constructor refHost blankPage []) "x".toList "3".toList).state
        "nonexistent".toList).userVariables = [("x".toList, .fin 3 0)] :=
  ⟨by decide,
    (deleteVariable_removes_only_name refHost
      (setVariable refHost (Calculator.constructor refHost blankPage []) "x".toList "3".toList).state
      "nonexistent".toList).2.2.2.1 (by decide)⟩

/-- C10: the history is an insertion-ordered sequence.  `saveHistory` appends the
new record after the earlier ones, which stay as they are.  For an index text
that `parseInt` reads as the integer `i`, `deleteHistory` removes the record at
position `i` and keeps the others in order when `0 <= i < length`, and leaves
the history unchanged otherwise.  The `data-index` text that `renderHistory`
puts on the `k`-th displayed item is the position in the history of the record
shown there, and `deleteHistory` called with that text removes that record. -/
theorem history_append_delete_index (c : Calculator) (expression result : JSString)
    (now : Nat) (index : JSString) :
    (saveHistory c expression result now).history = c.history ++ [⟨expression, result, now⟩] ∧
    (∀ i : Int, parseInt index = some i →
      (0 ≤ i ∧ i < c.history.length →
        (deleteHistory c index).history = c.history.eraseIdx i.toNat) ∧
      (¬ (0 ≤ i ∧ i < c.history.length) → (deleteHistory c index).history = c.history)) ∧
    (parseInt index = none → (deleteHistory c index).history = c.history) ∧
    (∀ k, k < c.history.length →
      ∃ item, c.history[c.history.length - 1 - k]? = some item ∧
        (renderHistory c).historyList[k]? =
          some (.item item.expression item.result (natToString (c.history.length - 1 - k))) ∧
        (deleteHistory c (natToString (c.history.length - 1 - k))).history =
          c.history.eraseIdx (c.history.length - 1 - k)) := by
  refine ⟨rfl, ?_, ?_, ?_⟩
  · intro i hparse
    constructor
    · intro hi
      unfold deleteHistory
      rw [hparse]
      simp only [if_pos hi, renderHistory]
    · intro hi
      unfold deleteHistory
      rw [hparse]
      simp only [if_neg hi]
  · intro hparse
    unfold deleteHistory
    rw [hparse]
  · intro k hk
    obtain ⟨item, h1, h2⟩ := historyMarkup_getElem? c.history k hk
    refine ⟨item, h1, h2, ?_⟩
    unfold deleteHistory
    rw [parseInt_natToString]
    have hi : (0 : Int) ≤ ((c.history.length - 1 - k : Nat) : Int) ∧
        ((c.history.length - 1 - k : Nat) : Int) < c.history.length := by
      constructor
      · exact Int.ofNat_nonneg _
      · exact Int.ofNat_lt.2 (by omega)
    simp only [if_pos hi, renderHistory, Int.toNat_ofNat]

/-- An instance: deleting at index 1 of three records, deleting at a text that is
not a number, and the index shown on the newest of two records. -/
theorem history_append_delete_index_witness :
    (parseInt "1".toList = some 1 ∧
      (deleteHistory (Calculator.constructor refHost blankPage
          [⟨"1+1".toList, "2.0000".toList, 10⟩, ⟨"2*3".toList, "6.0000".toList, 20⟩,
            ⟨"7".toList, "7.0000".toList, 30⟩]) "1".toList).history =
        [⟨"1+1".toList, "2.0000".toList, 10⟩, ⟨"7".toList, "7.0000".toList, 30⟩]) ∧
    (parseInt "x".toList = none ∧
      (deleteHistory (Calculator.constructor refHost blankPage
          [⟨"1+1".toList, "2.0000".toList, 10⟩]) "x".toList).history =
        [⟨"1+1".toList, "2.0000".toList, 10⟩]) ∧
    (∃ item : HistoryItem,
      (renderHistory (Calculator.constructor refHost blankPage
          [⟨"1+1".toList, "2.0000".toList, 10⟩, ⟨"2*3".toList, "6.0000".toList, 20⟩])
        ).historyList[0]? = some (.item item.expression item.result "1".toList) ∧
      item = ⟨"2*3".toList, "6.0000".toList, 20⟩) :=
  ⟨⟨by decide,
    ((history_append_delete_index (Calculator.constructor refHost blankPage
        [⟨"1+1".toList, "2.0000".toList, 10⟩, ⟨"2*3".toList, "6.0000".toList, 20⟩,
          ⟨"7".toList, "7.0000".toList, 30⟩]) [] [] 0 "1".toList).2.1 1 (by decide)).1
      (by decide)⟩,
   ⟨by decide,
    (history_append_delete_index (Calculator.constructor refHost blankPage
        [⟨"1+1".toList, "2.0000".toList, 10⟩]) [] [] 0 "x".toList).2.2.1 (by decide)⟩,
   (by
    obtain ⟨item, h1, h2, _⟩ := (history_append_delete_index (Calculator.constructor refHost blankPage
        [⟨"1+1".toList, "2.0000".toList, 10⟩, ⟨"2*3".toList, "6.0000".toList, 20⟩])
        [] [] 0 [] ).2.2.2 0 (by decide)
    refine ⟨item, h2, ?_⟩
    have h3 : (Calculator.constructor refHost blankPage
        [⟨"1+1".toList, "2.0000".toList, 10⟩, ⟨"2*3".toList, "6.0000".toList, 20⟩]).history[1]? =
        some ⟨"2*3".toList, "6.0000".toList, 20⟩ := by decide
    have h1' : (Calculator.constructor refHost blankPage
        [⟨"1+1".toList, "2.0000".toList, 10⟩, ⟨"2*3".toList, "6.0000".toList, 20⟩]).history[1]? =
        some item := h1
    rw [h3] at h1'
    injection h1' with h1'
    exact h1'.symm)⟩
